import Mathlib

/-!
Verification development for the ChatApp repository (src/utils.py, src/server.py).

The Python source is shallowly embedded: Python dicts become association
lists preserving insertion order, Python sets become `Finset String`,
wall-clock instants become `Nat` seconds, and sockets become `Nat`
identifiers.  Network sends are recorded as explicit `Output` values rather
than performed; the wall-clock timestamp stored inside server-built
envelopes is fixed to `""` because the spec excludes timestamp rendering
from scope and no property reads it back.  Fallible Python code (KeyError,
IndexError, ValueError) is modelled with `Option`.
-/

namespace ChatApp

/-- First-match lookup in an association list; models `d[k]` / `k in d` on a
Python dict (whose keys are unique, so first-match agrees with the dict). -/
def lookupKey {α β : Type} [DecidableEq α] : List (α × β) → α → Option β
  | [], _ => none
  | (k, v) :: rest, key => if k = key then some v else lookupKey rest key

/-- `d[k] = v` on a Python dict: update the first matching entry in place
(keeping its position, as CPython dicts do) or append a fresh entry. -/
def setKey {α β : Type} [DecidableEq α] : List (α × β) → α → β → List (α × β)
  | [], key, val => [(key, val)]
  | (k, v) :: rest, key, val =>
    if k = key then (key, val) :: rest else (k, v) :: setKey rest key val

/-- `del d[k]` on a Python dict: remove the first matching entry. -/
def eraseKey {α β : Type} [DecidableEq α] : List (α × β) → α → List (α × β)
  | [], _ => []
  | (k, v) :: rest, key => if k = key then rest else (k, v) :: eraseKey rest key

/-- The nine members of the `MessageType` enum in src/utils.py (`private`
is a Lean keyword, so that constructor is spelled `priv`). -/
inductive MessageType
  | chat | system | priv | join | leave | status | error | command | change
  deriving DecidableEq, Repr

/-- The `.value` string of each `MessageType` member. -/
def MessageType.value : MessageType → String
  | .chat => "chat"
  | .system => "system"
  | .priv => "private"
  | .join => "join"
  | .leave => "leave"
  | .status => "status"
  | .error => "error"
  | .command => "command"
  | .change => "change"

/-- `MessageType(s)`: the enum constructor by value; `none` models the
`ValueError` raised on an unrecognized value. -/
def MessageType.fromValue (s : String) : Option MessageType :=
  if s = "chat" then some .chat
  else if s = "system" then some .system
  else if s = "private" then some .priv
  else if s = "join" then some .join
  else if s = "leave" then some .leave
  else if s = "status" then some .status
  else if s = "error" then some .error
  else if s = "command" then some .command
  else if s = "change" then some .change
  else none

/-- The `Message` dataclass of src/utils.py.  `__post_init__` guarantees a
constructed message always carries a concrete timestamp string, so the
`timestamp` field is a plain `String` here. -/
structure Message where
  type : MessageType
  content : String
  sender : Option String := none
  receiver : Option String := none
  timestamp : String := ""
  room : Option String := none
  deriving DecidableEq, Repr

/-- JSON values that the envelope codec ever produces or consumes for a
field: JSON `null` or a JSON string.  `json.dumps` / `json.loads` are
Python-stdlib collaborators, modelled as the identity embedding of these
trees into the wire text. -/
inductive JVal
  | null
  | str (s : String)
  deriving DecidableEq, Repr

/-- Encode an optional string field the way `json.dumps` treats `None`. -/
def optJ : Option String → JVal
  | none => .null
  | some s => .str s

/-- `Message.to_dict`: the ordered field dictionary that `to_json` passes to
`json.dumps`. -/
def Message.to_dict (m : Message) : List (String × JVal) :=
  [("type", .str m.type.value),
   ("content", .str m.content),
   ("sender", optJ m.sender),
   ("receiver", optJ m.receiver),
   ("timestamp", .str m.timestamp),
   ("room", optJ m.room)]

/-- Decode a nullable-string field of the parsed dictionary. -/
def decodeOptStr : Option JVal → Option String
  | some (.str s) => some s
  | _ => none

/-- The field names accepted by `Message(**data)`. -/
def messageFieldNames : List String :=
  ["type", "content", "sender", "receiver", "timestamp", "room"]

/-- `Message.from_json` after `json.loads`: coerce `data["type"]` through
the enum (`ValueError` → `none`), then `cls(**data)` (unexpected key or
missing `content` raise `TypeError` → `none`).  `nowTs` is the
`datetime.now().isoformat()` string that `__post_init__` substitutes when
the decoded timestamp is `null`/absent. -/
def Message.from_data (nowTs : String) (data : List (String × JVal)) : Option Message :=
  match lookupKey data "type" with
  | none => none
  | some (.null) => none
  | some (.str tv) =>
    match MessageType.fromValue tv with
    | none => none
    | some t =>
      if data.all (fun p => p.1 ∈ messageFieldNames) then
        match lookupKey data "content" with
        | some (.str c) =>
          some { type := t
                 content := c
                 sender := decodeOptStr (lookupKey data "sender")
                 receiver := decodeOptStr (lookupKey data "receiver")
                 timestamp := match lookupKey data "timestamp" with
                   | some (.str ts) => ts
                   | _ => nowTs
                 room := decodeOptStr (lookupKey data "room") }
        | _ => none
      else none

/-- Python `str.strip()` with no argument: drop leading and trailing
whitespace.  (Implemented over the character list so that it evaluates
inside the kernel; agrees with Python on the ASCII whitespace the claims
exercise.) -/
def pyStrip (s : String) : String :=
  ⟨((s.toList.dropWhile Char.isWhitespace).reverse.dropWhile Char.isWhitespace).reverse⟩

namespace MessageParser

/-- `MessageParser.is_command`: `message.startswith('/')`. -/
def is_command (message : String) : Bool :=
  match message.toList with
  | '/' :: _ => true
  | _ => false

/-- Tokenizer for Python `str.split()` (split on whitespace runs, no empty
pieces); the fuel argument is only a structural-recursion bound, always
called with the list's length, which each step strictly decreases, so the
fuel never runs out. -/
def splitWsF : Nat → List Char → List String
  | _, [] => []
  | 0, l => [⟨l⟩]
  | fuel + 1, c :: rest =>
    if c.isWhitespace then splitWsF fuel rest
    else
      (⟨c :: rest.takeWhile (fun x => ¬ x.isWhitespace)⟩ : String) ::
        splitWsF fuel (rest.dropWhile (fun x => ¬ x.isWhitespace))

/-- Python `str.split()`: split on whitespace runs, dropping empty pieces. -/
def splitWs (s : String) : List String :=
  splitWsF s.toList.length s.toList

/-- Python `str.lower()` (ASCII range; the verbs compared against are all
ASCII). -/
def pyLower (s : String) : String :=
  ⟨s.toList.map Char.toLower⟩

/-- `MessageParser.parse_command`: strip the `/` prefix, split on
whitespace, lowercase the verb.  `none` models the `IndexError` raised by
`parts[0]` when the frame contains no token after the prefix. -/
def parse_command (message : String) : Option (String × List String) :=
  match splitWsF (message.toList.drop 1).length (message.toList.drop 1) with
  | [] => none
  | c :: rest => some (pyLower c, rest)

/-- A character of the class `[a-zA-Z0-9_-]`. -/
def isNameChar (c : Char) : Bool :=
  c.isAlphanum || c = '_' || c = '-'

/-- Python's `$` in `re.match(r'^...$', s)` also matches just before one
final newline; the pattern's character class excludes `'\n'`, so `s`
matches iff `s` with one trailing newline removed matches exactly. -/
def dollarTrim (s : String) : List Char :=
  match s.toList.reverse with
  | '\n' :: rest => rest.reverse
  | _ => s.toList

/-- `MessageParser.validate_username`: `re.match(r'^[a-zA-Z0-9_-]{3,16}$', s)`. -/
def validate_username (s : String) : Bool :=
  let t := dollarTrim s
  3 ≤ t.length && t.length ≤ 16 && t.all isNameChar

/-- `MessageParser.validate_room_name`: `re.match(r'^[a-zA-Z0-9_-]{1,32}$', s)`. -/
def validate_room_name (s : String) : Bool :=
  let t := dollarTrim s
  1 ≤ t.length && t.length ≤ 32 && t.all isNameChar

end MessageParser

namespace Security

/-- One pass of `re.sub(r'<[^>]*>', '', text)`: at a `'<'` that has a later
`'>'`, the (leftmost) match swallows everything through that first `'>'`;
a `'<'` with no following `'>'` cannot start a match and is kept.  The
fuel argument is only a structural-recursion bound, always called with the
list's length, which each step strictly decreases, so the fuel never runs
out. -/
def stripTagsF : Nat → List Char → List Char
  | _, [] => []
  | 0, l => l
  | fuel + 1, c :: rest =>
    if c = '<' ∧ rest.contains '>' then
      stripTagsF fuel ((rest.dropWhile (fun x => x ≠ '>')).drop 1)
    else
      c :: stripTagsF fuel rest

/-- `Security.sanitize_input`: remove HTML-like tags. -/
def sanitize_input (text : String) : String :=
  ⟨stripTagsF text.toList.length text.toList⟩

end Security

/-- The `RateLimiter` of src/utils.py; timestamps are seconds as `Nat`
(`(now - t).total_seconds() < window_seconds` keeps exactly the entries
with `now - t < window_seconds`, which truncated `Nat` subtraction
reproduces, including the keep-everything behaviour when `t > now`). -/
structure RateLimiter where
  max_messages : Nat := 10
  window_seconds : Nat := 60
  message_times : List (String × List Nat) := []
  deriving DecidableEq, Repr

/-- `RateLimiter.can_send_message`: prune the user's window, store the
pruned list back, then admit (appending `now`) iff the pruned count is
strictly below `max_messages`. -/
def RateLimiter.can_send_message (rl : RateLimiter) (user_id : String) (now : Nat) :
    Bool × RateLimiter :=
  let times := (lookupKey rl.message_times user_id).getD []
  let kept := times.filter (fun t => now - t < rl.window_seconds)
  if kept.length < rl.max_messages then
    (true, { rl with message_times := setKey rl.message_times user_id (kept ++ [now]) })
  else
    (false, { rl with message_times := setKey rl.message_times user_id kept })

/-- The `ChatRoom` of src/utils.py; `created_at` (display only) is omitted.
`users` is the Python set of member usernames. -/
structure ChatRoom where
  name : String
  description : String := ""
  max_users : Nat := 100
  users : Finset String := ∅
  deriving DecidableEq

/-- The mutable state of `EnhancedChatServer`: `clients` maps a socket id
to its `(address, username)` pair, `rooms` maps a room name to its
`ChatRoom`, and `rate` is the shared `RateLimiter`. -/
structure ServerState where
  clients : List (Nat × String × String)
  rooms : List (String × ChatRoom)
  rate : RateLimiter
  deriving DecidableEq

/-- An observable network action: a `socket.send` of one encoded envelope,
or a `socket.close`. -/
inductive Output
  | send (sock : Nat) (msg : Message)
  | close (sock : Nat)
  deriving DecidableEq, Repr

/-- Build a `Message` the way the server constructors do (timestamp fixed,
see the header comment). -/
def mkMessage (t : MessageType) (content : String) (sender receiver room : Option String) :
    Message :=
  { type := t, content := content, sender := sender, receiver := receiver
    timestamp := "", room := room }

/-- The state `EnhancedChatServer.__init__` builds: no clients, the
pre-created `"main"` room, a default rate limiter. -/
def initState : ServerState :=
  { clients := []
    rooms := [("main", { name := "main", description := "Main chat room" })]
    rate := {} }

/-- Replace the room stored under `name` (in place, like mutating the
`ChatRoom` object held in the dict). -/
def updateRoom (rooms : List (String × ChatRoom)) (name : String)
    (f : ChatRoom → ChatRoom) : List (String × ChatRoom) :=
  rooms.map (fun p => if p.1 = name then (p.1, f p.2) else p)

/-- Replace the `(address, username)` pair stored under socket `sock`. -/
def updateClient (clients : List (Nat × String × String)) (sock : Nat)
    (v : String × String) : List (Nat × String × String) :=
  clients.map (fun p => if p.1 = sock then (p.1, v) else p)

/-- `EnhancedChatServer.broadcast_to_room` when every send succeeds: one
send per registered client that is a member of the named room and is not
the excluded socket; an unknown room is only logged.  The state is
untouched, so only the outputs are returned.  (The failing-send behaviour
is modelled separately by `broadcast_to_room_d`.) -/
def broadcast_to_room (st : ServerState) (message : Message) (room_name : String)
    (exclude : Option Nat) : List Output :=
  match lookupKey st.rooms room_name with
  | none => []
  | some room =>
    st.clients.filterMap (fun c =>
      if exclude ≠ some c.1 ∧ c.2.2 ∈ room.users then some (.send c.1 message) else none)

/-- `EnhancedChatServer.broadcast_message` when every send succeeds: one
send per registered client other than the excluded socket.  The source's
`room` parameter is dead (never passed at any call site) and is omitted. -/
def broadcast_message (st : ServerState) (message : Message) (exclude : Option Nat) :
    List Output :=
  st.clients.filterMap (fun c =>
    if exclude = some c.1 then none else some (.send c.1 message))

/-- `EnhancedChatServer.handle_client_authentication`, up to the handoff to
`handle_client` (frames are separate events): empty read closes silently;
an invalid or taken username gets an error envelope and a close; otherwise
the client is registered, added to `"main"` (no capacity check in the
source), welcomed, and announced to everyone else. -/
def handle_client_authentication (st : ServerState) (sock : Nat) (addr : String)
    (data : String) : ServerState × List Output :=
  if data = "" then (st, [.close sock])
  else
    let username := Security.sanitize_input (pyStrip data)
    if ¬ MessageParser.validate_username username then
      (st, [.send sock (mkMessage .error "Invalid username format. Connection rejected."
              (some "System") none none), .close sock])
    else if st.clients.any (fun c => username = c.2.2) then
      (st, [.send sock (mkMessage .error "Username already taken. Please try another one."
              (some "System") none none), .close sock])
    else
      let st' := { st with
        clients := st.clients ++ [(sock, addr, username)]
        rooms := updateRoom st.rooms "main" (fun r => { r with users := insert username r.users }) }
      let success := mkMessage .system (s!"Welcome {username}! You have joined the chat.")
        (some "System") none none
      let joinMsg := mkMessage .join (s!"{username} joined the chat") (some username) none
        (some "main")
      (st', [.send sock success] ++ broadcast_message st' joinMsg (some sock))

/-- The removal loop at the top of `join_room` (`for r in self.rooms.values():
if username in r.users: r.users.remove(username); broadcast leave`),
iterating the rooms in dict order; each leave notice is broadcast against
the state in which the user has just been removed from that room. -/
def removeUserGo (u : String) : List String → ServerState → List Output →
    ServerState × List Output
  | [], st, acc => (st, acc)
  | name :: rest, st, acc =>
    match lookupKey st.rooms name with
    | none => removeUserGo u rest st acc
    | some r =>
      if u ∈ r.users then
        let st' := { st with
          rooms := updateRoom st.rooms name (fun rr => { rr with users := rr.users.erase u }) }
        let lm := mkMessage .leave (s!"{u} left the room") (some u) none (some name)
        removeUserGo u rest st' (acc ++ broadcast_to_room st' lm name none)
      else removeUserGo u rest st acc

/-- Remove `u` from every room, emitting a leave notice per departed room. -/
def removeUserFromRooms (st : ServerState) (u : String) : ServerState × List Output :=
  removeUserGo u (st.rooms.map Prod.fst) st []

/-- The `if room_name not in self.rooms:` creation step of `join_room`:
append a fresh default-capacity room when the name is unknown. -/
def createRoom (st : ServerState) (room_name : String) : List (String × ChatRoom) :=
  if (lookupKey st.rooms room_name).isNone then
    st.rooms ++ [(room_name, { name := room_name, description := s!"Room {room_name}" })]
  else st.rooms

/-- `EnhancedChatServer.join_room`.  `none` models the `KeyError` from
`self.clients[client_socket]` for an unregistered socket.  The source
validates the room name twice (both checks are reproduced), lazily creates
the room, rejects when full, otherwise removes the user from every current
room and inserts them into the target. -/
def join_room (st : ServerState) (sock : Nat) (room_name : String) :
    Option (ServerState × List Output) :=
  if ¬ MessageParser.validate_room_name room_name then
    some (st, [.send sock (mkMessage .error (s!"Invalid room name: {room_name}")
      (some "System") none none)])
  else
    match lookupKey st.clients sock with
    | none => none
    | some (_addr, username) =>
      if ¬ MessageParser.validate_room_name room_name then
        some (st, [.send sock (mkMessage .error (s!"Invalid room name: {room_name}")
          (some "System") none none)])
      else
        let rooms1 := createRoom st room_name
        let st1 := { st with rooms := rooms1 }
        match lookupKey rooms1 room_name with
        | none => none
        | some room =>
          if room.max_users ≤ room.users.card then
            some (st1, [.send sock (mkMessage .error (s!"Room {room_name} is full")
              (some "System") none none)])
          else
            let (st2, outs1) := removeUserFromRooms st1 username
            let st3 := { st2 with
              rooms := updateRoom st2.rooms room_name
                (fun r => { r with users := insert username r.users }) }
            let success := mkMessage .system (s!"You joined room: {room_name}")
              (some "System") none (some room_name)
            let joinMsg := mkMessage .join (s!"{username} joined the room") (some username)
              none (some room_name)
            some (st3, outs1 ++ [.send sock success] ++
              broadcast_to_room st3 joinMsg room_name (some sock))

/-- `EnhancedChatServer.leave_room`: remove the user from the first room
(dict order) that contains them, notify, then re-join `"main"` through
`join_room`; a user in no room is a silent no-op. -/
def leave_room (st : ServerState) (sock : Nat) : Option (ServerState × List Output) :=
  match lookupKey st.clients sock with
  | none => none
  | some (_addr, username) =>
    match st.rooms.find? (fun p => username ∈ p.2.users) with
    | none => some (st, [])
    | some (rn, _) =>
      let st1 := { st with
        rooms := updateRoom st.rooms rn (fun rr => { rr with users := rr.users.erase username }) }
      let note := mkMessage .system (s!"You left room: {rn}") (some "System") none none
      let lm := mkMessage .leave (s!"{username} left the room") (some username) none (some rn)
      let outs2 := broadcast_to_room st1 lm rn none
      match join_room st1 sock "main" with
      | none => none
      | some (st2, outs3) => some (st2, [.send sock note] ++ outs2 ++ outs3)

/-- `EnhancedChatServer.change_username`: sanitize and validate the new
name, reject a taken one, then update the registry entry in place, rename
the user inside the first room that contains them, confirm to the client
and announce the change to the `"main"` room. -/
def change_username (st : ServerState) (sock : Nat) (new_username_raw : String) :
    Option (ServerState × List Output) :=
  match lookupKey st.clients sock with
  | none => none
  | some (addr, current_username) =>
    let new_username := Security.sanitize_input (pyStrip new_username_raw)
    if ¬ MessageParser.validate_username new_username then
      some (st, [.send sock (mkMessage .error
        "\x1b[31mInvalid username format. Please try again.\x1b[0m"
        (some "System") none none)])
    else if st.clients.any (fun c => new_username = c.2.2) then
      some (st, [.send sock (mkMessage .error "Username already taken. Please choose another one."
        (some "System") none none)])
    else
      let clients' := updateClient st.clients sock (addr, new_username)
      let croom := st.rooms.find? (fun p => current_username ∈ p.2.users)
      let rooms' := match croom with
        | some (rn, _) => updateRoom st.rooms rn
            (fun r => { r with users := insert new_username (r.users.erase current_username) })
        | none => st.rooms
      let st' := { st with clients := clients', rooms := rooms' }
      let success := mkMessage .change (s!"Your username has been changed to {new_username}.")
        (some "System") none (some ((croom.map Prod.fst).getD "main"))
      let chg := mkMessage .change
        (s!"{current_username} has changed their username to {new_username}.")
        (some "System") none (some "main")
      some (st', [.send sock success] ++ broadcast_to_room st' chg "main" (some sock))

/-- `EnhancedChatServer.list_room_users`: reply with the sorted member list
of the first room containing the user; silent when the user is in no room. -/
def list_room_users (st : ServerState) (sock : Nat) : Option (ServerState × List Output) :=
  match lookupKey st.clients sock with
  | none => none
  | some (_addr, username) =>
    match st.rooms.find? (fun p => username ∈ p.2.users) with
    | none => some (st, [])
    | some (rn, r) =>
      let userList := r.users.sort (· ≤ ·)
      some (st, [.send sock (mkMessage .system
        (s!"Users in {rn}:\n" ++ String.intercalate "\n" userList)
        (some "System") none none)])

/-- `EnhancedChatServer.list_rooms`: reply with every room's name and
occupancy. -/
def list_rooms (st : ServerState) (sock : Nat) : ServerState × List Output :=
  let lines := st.rooms.map (fun p =>
    let cnt := p.2.users.card
    let mx := p.2.max_users
    let nm := p.2.name
    s!"{nm} ({cnt}/{mx} users)")
  (st, [.send sock (mkMessage .system ("Available rooms:\n" ++ String.intercalate "\n" lines)
    (some "System") none none)])

/-- `EnhancedChatServer.send_private_message`: deliver once to the first
registered client carrying the receiver's username; deliver nowhere (and
tell nobody) when the receiver is absent. -/
def send_private_message (st : ServerState) (sender receiver content : String) :
    ServerState × List Output :=
  let msg := mkMessage .priv (Security.sanitize_input content) (some sender) (some receiver) none
  match st.clients.find? (fun c => c.2.2 = receiver) with
  | some c => (st, [.send c.1 msg])
  | none => (st, [])

/-- `EnhancedChatServer.handle_client_disconnect` when every send succeeds:
a no-op for an unregistered socket; otherwise discard the username from
every room, broadcast one global leave notice excluding the closing
socket, unregister it and close it. -/
def handle_client_disconnect (st : ServerState) (sock : Nat) : ServerState × List Output :=
  match lookupKey st.clients sock with
  | none => (st, [])
  | some (_addr, username) =>
    let st1 := { st with
      rooms := st.rooms.map (fun p => (p.1, { p.2 with users := p.2.users.erase username })) }
    let lm := mkMessage .leave (s!"{username} left the chat") (some username) none none
    let outs := broadcast_message st1 lm (some sock)
    ({ st1 with clients := eraseKey st1.clients sock }, outs ++ [.close sock])

/-- The `/help` reply text assembled from `MessageParser.COMMANDS`. -/
def helpText : String :=
  String.intercalate "\n"
    ["help: Show available commands",
     "change: Change your username",
     "join: Join a room: /join room_name",
     "leave: Leave current room",
     "list: List all available rooms",
     "users: List all online users",
     "msg: Send private message: /msg username message",
     "status: Change status: /status [online|away|busy]"]

/-- `EnhancedChatServer.handle_command`: look up the sender, parse the
frame, and dispatch down the `elif` chain; a verb that matches no branch
(or a known verb whose argument-count guard fails) falls through and
returns normally with no reply and no state change.  `none` models an
uncaught exception (unregistered socket, or `parts[0]` on a bare `/`). -/
def handle_command (st : ServerState) (sock : Nat) (command_str : String) :
    Option (ServerState × List Output) :=
  match lookupKey st.clients sock with
  | none => none
  | some (_addr, username) =>
    match MessageParser.parse_command command_str with
    | none => none
    | some (command, args) =>
      if command = "help" then
        some (st, [.send sock (mkMessage .system helpText (some "System") none none)])
      else if command = "join" then
        match args with
        | [roomArg] => join_room st sock roomArg
        | _ => some (st, [])
      else if command = "leave" then
        leave_room st sock
      else if command = "list" then
        some (list_rooms st sock)
      else if command = "users" then
        list_room_users st sock
      else if command = "change" then
        match args with
        | [newName] => change_username st sock newName
        | _ => some (st, [])
      else if command = "msg" then
        match args with
        | target :: rest =>
          if rest.length = 0 then some (st, [])
          else some (send_private_message st username target (String.intercalate " " rest))
        | [] => some (st, [])
      else
        some (st, [])

/-- One iteration of the `handle_client` read loop on frame `data` at time
`now`: charge the rate limiter (its pruning writes back even on deny),
reply with a rate-limit error on deny, else dispatch a `/`-prefixed frame
to `handle_command` — whose uncaught exception is caught by
`handle_client`, whose `finally` then disconnects the session — and
otherwise broadcast the sanitized text as chat to the sender's current
room (defaulting to `"main"`). -/
def handle_frame (st : ServerState) (sock : Nat) (now : Nat) (data : String) :
    Option (ServerState × List Output) :=
  match lookupKey st.clients sock with
  | none => none
  | some (_addr, username) =>
    let res := st.rate.can_send_message username now
    let st1 := { st with rate := res.2 }
    if ¬ res.1 then
      some (st1, [.send sock (mkMessage .error
        "Rate limit exceeded. Please wait before sending more messages."
        (some "System") none none)])
    else if MessageParser.is_command data then
      match handle_command st1 sock data with
      | none => some (handle_client_disconnect st1 sock)
      | some r => some r
    else
      let current_room := ((st1.rooms.find? (fun p => username ∈ p.2.users)).map Prod.fst).getD
        "main"
      let msg := mkMessage .chat (Security.sanitize_input data) (some username) none
        (some current_room)
      some (st1, broadcast_to_room st1 msg current_room none)

/-- The externally triggered events of one server: a connection finishing
the authentication handshake, one frame read in the Active state, and a
transport-level disconnect. -/
inductive Op
  | auth (sock : Nat) (addr : String) (data : String)
  | frame (sock : Nat) (now : Nat) (data : String)
  | disconnect (sock : Nat)

/-- Apply one event.  An `auth` for an already-registered socket and a
`frame` for an unregistered one have no session that could issue them and
leave the state unchanged. -/
def applyOp (st : ServerState) : Op → ServerState × List Output
  | .auth sock addr data =>
    if (lookupKey st.clients sock).isSome then (st, [])
    else handle_client_authentication st sock addr data
  | .frame sock now data =>
    match handle_frame st sock now data with
    | some r => r
    | none => (st, [])
  | .disconnect sock => handle_client_disconnect st sock

/-- Run the server from `initState` over a list of events. -/
def runOps (ops : List Op) : ServerState :=
  ops.foldl (fun st op => (applyOp st op).1) initState

/-- Run a bare sequence of `join_room` calls (socket, room name) from an
arbitrary state, skipping calls whose socket is unregistered. -/
def runJoins (st : ServerState) (js : List (Nat × String)) : ServerState :=
  js.foldl (fun s j =>
    match join_room s j.1 j.2 with
    | some r => r.1
    | none => s) st

/-- Feed `can_send_message` a sequence of call instants for one user,
collecting the admission verdicts. -/
def runLimiter (rl : RateLimiter) (u : String) : List Nat → List Bool × RateLimiter
  | [] => ([], rl)
  | t :: ts =>
    let res := rl.can_send_message u t
    let rest := runLimiter res.2 u ts
    (res.1 :: rest.1, rest.2)

/-- The admission check exactly as the claim words it (for comparison with
`can_send_message`): first discard the timestamps *strictly older than*
`now - window_seconds`, then admit (recording `now`) iff the remaining
count is strictly below `max_messages`. -/
def can_send_claim (rl : RateLimiter) (user_id : String) (now : Nat) :
    Bool × RateLimiter :=
  let times := (lookupKey rl.message_times user_id).getD []
  let kept := times.filter (fun t => ¬ t < now - rl.window_seconds)
  if kept.length < rl.max_messages then
    (true, { rl with message_times := setKey rl.message_times user_id (kept ++ [now]) })
  else
    (false, { rl with message_times := setKey rl.message_times user_id kept })

/-- The admission check as the amendment words it, written independently of
`can_send_message`: count the recorded timestamps whose age `now - t` is
at most `window_seconds - 1` (equivalently, strictly less than
`window_seconds`); admit iff that count is below `max_messages`; the
stored window keeps exactly those timestamps, plus `now` when admitted. -/
def can_send_amended (rl : RateLimiter) (user_id : String) (now : Nat) :
    Bool × RateLimiter :=
  let times := (lookupKey rl.message_times user_id).getD []
  let fresh := fun t => decide (now - t + 1 ≤ rl.window_seconds)
  let verdict := times.countP fresh < rl.max_messages
  let keptBack := times.filter fresh ++ if verdict then [now] else []
  (verdict, { rl with message_times := setKey rl.message_times user_id keptBack })

/-- Result of a server call in the failing-send model: the state, the
outputs emitted so far, and whether an uncaught `RuntimeError` is
propagating out of the call. -/
structure DRes where
  st : ServerState
  outs : List Output
  exc : Bool
  deriving DecidableEq

/-- The `for client_socket, client_data in self.clients.items()` loop of
`broadcast_message`, iterating with failing sends: a failed send runs the
disconnect handler `disc` for that recipient, whose
`del self.clients[...]` shrinks the dict being iterated, so the loop's
next step raises `RuntimeError: dictionary changed size during iteration`
(CPython raises it even when the failed recipient was the last entry),
reported as `exc := true`. -/
def bmLoop (disc : ServerState → Nat → DRes) (dead : List Nat) (message : Message)
    (exclude : Option Nat) :
    List (Nat × String × String) → ServerState → List Output → DRes
  | [], cur, acc => ⟨cur, acc, false⟩
  | (csock, _) :: rest, cur, acc =>
    if exclude = some csock then bmLoop disc dead message exclude rest cur acc
    else if dead.contains csock then
      let d := disc cur csock
      ⟨d.st, acc ++ d.outs, true⟩
    else bmLoop disc dead message exclude rest cur (acc ++ [.send csock message])

/-- `handle_client_disconnect` in the failing-send model.  Its own global
leave broadcast iterates `self.clients` afresh and can cascade into
further disconnects; if that inner loop raises, the exception propagates
before `del self.clients[client_socket]` runs, leaving the socket
registered.  The fuel only bounds the cascade depth (in the source the
cascade is bounded by the number of registered clients); fuel exhaustion
is reported like an exception and is unreachable with fuel above the
client count. -/
def discD (dead : List Nat) : Nat → ServerState → Nat → DRes
  | 0, st, _ => ⟨st, [], true⟩
  | fuel + 1, st, sock =>
    match lookupKey st.clients sock with
    | none => ⟨st, [], false⟩
    | some (_addr, username) =>
      let st1 := { st with
        rooms := st.rooms.map (fun p => (p.1, { p.2 with users := p.2.users.erase username })) }
      let lm := mkMessage .leave (s!"{username} left the chat") (some username) none none
      let b := bmLoop (fun s k => discD dead fuel s k) dead lm (some sock) st1.clients st1 []
      if b.exc then ⟨b.st, b.outs, true⟩
      else ⟨{ b.st with clients := eraseKey b.st.clients sock }, b.outs ++ [.close sock], false⟩

/-- The `for client_socket, (_, username) in self.clients.items()` loop of
`broadcast_to_room` with failing sends; the `room` object was fetched once
before the loop (`room` argument), and a failed send triggers the
recipient's disconnect followed by the same iterator `RuntimeError`. -/
def btrLoop (disc : ServerState → Nat → DRes) (dead : List Nat) (message : Message)
    (exclude : Option Nat) (room : ChatRoom) :
    List (Nat × String × String) → ServerState → List Output → DRes
  | [], cur, acc => ⟨cur, acc, false⟩
  | (csock, _, uname) :: rest, cur, acc =>
    if exclude ≠ some csock ∧ uname ∈ room.users then
      if dead.contains csock then
        let d := disc cur csock
        ⟨d.st, acc ++ d.outs, true⟩
      else btrLoop disc dead message exclude room rest cur (acc ++ [.send csock message])
    else btrLoop disc dead message exclude room rest cur acc

/-- `EnhancedChatServer.broadcast_to_room` in the failing-send model:
sends to sockets listed in `dead` raise, everything else succeeds. -/
def broadcast_to_room_d (dead : List Nat) (st : ServerState) (message : Message)
    (room_name : String) (exclude : Option Nat) (fuel : Nat) : DRes :=
  match lookupKey st.rooms room_name with
  | none => ⟨st, [], false⟩
  | some room =>
    btrLoop (fun s k => discD dead fuel s k) dead message exclude room st.clients st []

/-- How many rooms of `st` currently list `u` as a member. -/
def roomsWith (st : ServerState) (u : String) : Nat :=
  st.rooms.countP (fun p => decide (u ∈ p.2.users))

/-- The usernames of all registered clients, in registration order. -/
def clientUsernames (st : ServerState) : List String :=
  st.clients.map (fun c => c.2.2)

/-- Every username is a member of at most one room. -/
def AtMostOneRoom (st : ServerState) : Prop :=
  ∀ u, roomsWith st u ≤ 1

/-- Every room member is a registered username. -/
def MembersRegistered (st : ServerState) : Prop :=
  ∀ p ∈ st.rooms, ∀ u ∈ p.2.users, u ∈ clientUsernames st

/-- Room names are unique (they key a Python dict). -/
def RoomKeysNodup (st : ServerState) : Prop :=
  (st.rooms.map Prod.fst).Nodup

/-- Socket ids are unique (they key a Python dict). -/
def ClientKeysNodup (st : ServerState) : Prop :=
  (st.clients.map Prod.fst).Nodup

/-- The structural invariant carried through every server operation. -/
def Inv (st : ServerState) : Prop :=
  RoomKeysNodup st ∧ ClientKeysNodup st ∧ AtMostOneRoom st ∧ MembersRegistered st

/-- Every room is within its capacity, and room names are unique. -/
def RoomsWF (st : ServerState) : Prop :=
  RoomKeysNodup st ∧ ∀ p ∈ st.rooms, p.2.users.card ≤ p.2.max_users

end ChatApp

namespace ChatApp

/-! ### Association-list lemmas -/

theorem lookupKey_setKey_self {α β : Type} [DecidableEq α] (l : List (α × β)) (k : α) (v : β) :
    lookupKey (setKey l k v) k = some v := by
  induction l with
  | nil => simp [setKey, lookupKey]
  | cons p rest ih =>
    obtain ⟨pk, pv⟩ := p
    by_cases h : pk = k
    · simp [setKey, h, lookupKey]
    · simp [setKey, h, lookupKey, ih]

theorem lookupKey_eq_none {α β : Type} [DecidableEq α] {l : List (α × β)} {k : α}
    (h : lookupKey l k = none) : ∀ p ∈ l, p.1 ≠ k := by
  induction l with
  | nil => intro p hp; cases hp
  | cons q rest ih =>
    obtain ⟨qk, qv⟩ := q
    intro p hp
    by_cases hq : qk = k
    · simp [lookupKey, hq] at h
    · rcases List.mem_cons.mp hp with hp | hp
      · subst hp; exact hq
      · exact ih (by simpa [lookupKey, hq] using h) p hp

theorem lookupKey_mem {α β : Type} [DecidableEq α] {l : List (α × β)} {k : α} {v : β}
    (h : lookupKey l k = some v) : (k, v) ∈ l := by
  induction l with
  | nil => simp [lookupKey] at h
  | cons q rest ih =>
    obtain ⟨qk, qv⟩ := q
    by_cases hq : qk = k
    · subst hq
      have h' : qv = v := by simpa [lookupKey] using h
      subst h'
      exact List.mem_cons_self _ _
    · exact List.mem_cons_of_mem _ (ih (by simpa [lookupKey, hq] using h))

theorem nodup_key_inj {α β : Type} {l : List (α × β)} (hn : (l.map Prod.fst).Nodup)
    {p q : α × β} (hp : p ∈ l) (hq : q ∈ l) (hk : p.1 = q.1) : p = q := by
  induction l with
  | nil => cases hp
  | cons r rest ih =>
    simp only [List.map_cons, List.nodup_cons] at hn
    rcases List.mem_cons.mp hp with hp1 | hp1 <;> rcases List.mem_cons.mp hq with hq1 | hq1
    · rw [hp1, hq1]
    · exfalso
      exact hn.1 (by rw [← hp1, hk]; exact List.mem_map_of_mem Prod.fst hq1)
    · exfalso
      exact hn.1 (by rw [← hq1, ← hk]; exact List.mem_map_of_mem Prod.fst hp1)
    · exact ih hn.2 hp1 hq1

theorem lookupKey_unique {α β : Type} [DecidableEq α] {l : List (α × β)} {k : α} {v : β}
    (hn : (l.map Prod.fst).Nodup) (h : lookupKey l k = some v) :
    ∀ p ∈ l, p.1 = k → p = (k, v) := by
  intro p hp hpk
  exact nodup_key_inj hn hp (lookupKey_mem h) (by rw [hpk])

theorem eraseKey_sublist {α β : Type} [DecidableEq α] (l : List (α × β)) (k : α) :
    (eraseKey l k).Sublist l := by
  induction l with
  | nil => simp [eraseKey]
  | cons q rest ih =>
    obtain ⟨qk, qv⟩ := q
    by_cases hq : qk = k
    · simp only [eraseKey, if_pos hq]
      exact List.sublist_cons_self _ _
    · simpa [eraseKey, hq] using ih.cons₂ (qk, qv)

theorem lookupKey_eraseKey_self {α β : Type} [DecidableEq α] {l : List (α × β)} {k : α}
    (hn : (l.map Prod.fst).Nodup) : lookupKey (eraseKey l k) k = none := by
  induction l with
  | nil => simp [eraseKey, lookupKey]
  | cons q rest ih =>
    obtain ⟨qk, qv⟩ := q
    simp only [List.map_cons, List.nodup_cons] at hn
    by_cases hq : qk = k
    · subst hq
      have he : eraseKey ((qk, qv) :: rest) qk = rest := by simp [eraseKey]
      rw [he]
      cases hrest : lookupKey rest qk with
      | none => rfl
      | some w =>
        exact absurd (List.mem_map_of_mem Prod.fst (lookupKey_mem hrest)) hn.1
    · simpa [eraseKey, hq, lookupKey] using ih hn.2

theorem mem_eraseKey_of_key_ne {α β : Type} [DecidableEq α] {l : List (α × β)} {k : α}
    {p : α × β} (hp : p ∈ l) (hne : p.1 ≠ k) : p ∈ eraseKey l k := by
  induction l with
  | nil => cases hp
  | cons q rest ih =>
    obtain ⟨qk, qv⟩ := q
    rcases List.mem_cons.mp hp with hp1 | hp1
    · subst hp1
      have hqk : ¬ qk = k := by simpa using hne
      simp [eraseKey, hqk]
    · by_cases hq : qk = k
      · simpa [eraseKey, hq] using hp1
      · simp only [eraseKey, if_neg hq]
        exact List.mem_cons_of_mem _ (ih hp1)

/-! ### Claim C9: the envelope codec round-trips -/

/-- C9 (confirmed).  For every valid envelope `e` (well-formed, typed
fields and a recognized kind, which the `Message` structure enforces),
decoding the encoding yields `e` again: `Message.from_json(e.to_json())
== e`, where the `json.dumps`/`json.loads` stdlib pair is modelled as the
identity embedding of the field dictionary (`Message.to_dict`, the exact
object handed to `dumps`) into the wire text, and `Message.from_data` is
the repository's own decoding logic applied to the parsed dictionary
(`nowTs` being whatever `datetime.now` would return, irrelevant here
because an encoded envelope always carries a timestamp string). -/
theorem claim_C9 :
    ∀ (m : Message) (nowTs : String), Message.from_data nowTs (Message.to_dict m) = some m := by
  intro m nowTs
  obtain ⟨t, c, s, r, ts, rm⟩ := m
  cases t <;> cases s <;> cases r <;> cases rm <;> rfl

/-! ### Claim C1: the rate limiter's sliding window -/

/-- C1 counterexample (closed).  With the default limits (10 messages per
60 seconds), a user whose ten recorded timestamps are all exactly 60
seconds old is admitted by the code (`can_send_message` discards
timestamps of age `≥ window_seconds`, emptying the window), whereas the
claim's wording — first discard only the timestamps *older than*
`now − window_seconds`, then admit iff fewer than `max_messages` remain
(`can_send_claim`) — retains all ten and denies.  The claim therefore
misstates the admission decision at this input. -/
theorem claim_C1_cex :
    (RateLimiter.can_send_message ⟨10, 60, [("bob", List.replicate 10 0)]⟩ "bob" 60).1 = true ∧
    (can_send_claim ⟨10, 60, [("bob", List.replicate 10 0)]⟩ "bob" 60).1 = false := by
  constructor
  · decide
  · decide

/-- One `can_send_message` call whose pruning keeps the whole stored
window `pre`. -/
theorem can_send_eq (rl : RateLimiter) (u : String) (now : Nat) (pre : List Nat)
    (hpre : (lookupKey rl.message_times u).getD [] = pre)
    (hkeep : ∀ x ∈ pre, now - x < rl.window_seconds) :
    rl.can_send_message u now =
      if pre.length < rl.max_messages then
        (true, { rl with message_times := setKey rl.message_times u (pre ++ [now]) })
      else
        (false, { rl with message_times := setKey rl.message_times u pre }) := by
  have hfilter : pre.filter (fun x => decide (now - x < rl.window_seconds)) = pre :=
    List.filter_eq_self.mpr (by intro a ha; simpa using hkeep a ha)
  simp only [RateLimiter.can_send_message, hpre, hfilter]

theorem runLimiter_window_aux (u : String) (lo : Nat) :
    ∀ (ts : List Nat) (rl : RateLimiter) (pre : List Nat),
      (lookupKey rl.message_times u).getD [] = pre →
      (∀ t ∈ pre, lo ≤ t ∧ t < lo + rl.window_seconds) →
      (∀ t ∈ ts, lo ≤ t ∧ t < lo + rl.window_seconds) →
      pre.length ≤ rl.max_messages →
      pre.length + ts.length = rl.max_messages + 1 →
      (runLimiter rl u ts).1 = List.replicate (rl.max_messages - pre.length) true ++ [false]
  | [], rl, pre, hpre, hpreW, htsW, hbound, hlen => by
    exfalso
    simp only [List.length_nil, Nat.add_zero] at hlen
    omega
  | t :: ts, rl, pre, hpre, hpreW, htsW, hbound, hlen => by
    have hkeep : ∀ x ∈ pre, t - x < rl.window_seconds := by
      intro x hx
      have h1 := hpreW x hx
      have h2 := htsW t (List.mem_cons_self _ _)
      omega
    simp only [runLimiter, can_send_eq rl u t pre hpre hkeep]
    simp only [List.length_cons] at hlen
    by_cases hlt : pre.length < rl.max_messages
    · simp only [if_pos hlt]
      have hrec := runLimiter_window_aux u lo ts
        { rl with message_times := setKey rl.message_times u (pre ++ [t]) } (pre ++ [t])
        (by simp [lookupKey_setKey_self])
        (by
          intro x hx
          rcases List.mem_append.mp hx with hx | hx
          · exact hpreW x hx
          · rcases List.mem_singleton.mp hx with rfl
            exact htsW x (List.mem_cons_self _ _))
        (fun x hx => htsW x (List.mem_cons_of_mem _ hx))
        (by simp only [List.length_append, List.length_singleton]; omega)
        (by simp only [List.length_append, List.length_singleton]; omega)
      rw [hrec]
      have hstep : rl.max_messages - pre.length = (rl.max_messages - (pre.length + 1)) + 1 := by
        omega
      rw [hstep, List.replicate_succ]
      simp
    · simp only [if_neg hlt]
      have hpre_eq : pre.length = rl.max_messages := by omega
      have hts_nil : ts = [] := List.length_eq_zero.mp (by omega)
      subst hts_nil
      simp only [runLimiter]
      rw [hpre_eq]
      simp

/-- C1 amended (proved).  The admission check first discards the
timestamps whose age `now − t` is at least `window_seconds` (not only
those strictly older than `now − window_seconds`), then returns allow and
records `now` iff the remaining count is strictly below `max_messages`
(`can_send_amended` words exactly that); consequently, for any limiter
state in which the user has no recorded timestamps, any `max_messages + 1`
calls falling inside one `window_seconds` interval are admitted for the
first `max_messages` and denied for the last. -/
theorem claim_C1_amended :
    (∀ (rl : RateLimiter) (u : String) (now : Nat),
      rl.can_send_message u now = can_send_amended rl u now) ∧
    (∀ (rl : RateLimiter) (u : String) (lo : Nat) (ts : List Nat),
      (lookupKey rl.message_times u).getD [] = [] →
      (∀ t ∈ ts, lo ≤ t ∧ t < lo + rl.window_seconds) →
      ts.length = rl.max_messages + 1 →
      (runLimiter rl u ts).1 = List.replicate rl.max_messages true ++ [false]) := by
  constructor
  · intro rl u now
    unfold RateLimiter.can_send_message can_send_amended
    have hfn : (fun t => decide (now - t + 1 ≤ rl.window_seconds)) =
        (fun t => decide (now - t < rl.window_seconds)) := rfl
    rw [hfn]
    simp only [List.countP_eq_length_filter]
    by_cases h :
        (((lookupKey rl.message_times u).getD []).filter
          (fun t => decide (now - t < rl.window_seconds))).length < rl.max_messages
    · simp [h]
    · simp [h]
  · intro rl u lo ts hpre htsW hlen
    have := runLimiter_window_aux u lo ts rl [] hpre (by intro t ht; cases ht)
      htsW (by simp) (by simpa using hlen)
    simpa using this

/-- Witness for C1's amended theorem at the default limits: eleven calls
inside one minute, ten admitted then one denied. -/
theorem claim_C1_witness :
    (runLimiter ⟨10, 60, []⟩ "bob" [0, 1, 2, 3, 4, 5, 6, 7, 8, 9, 10]).1 =
      List.replicate 10 true ++ [false] :=
  claim_C1_amended.2 ⟨10, 60, []⟩ "bob" 0 [0, 1, 2, 3, 4, 5, 6, 7, 8, 9, 10]
    (by decide) (by decide) (by decide)

/-! ### Branch lemmas for authentication and join_room -/

/-- A non-empty read whose sanitized, stripped username fails validation:
error envelope, then the socket is closed; no state change. -/
theorem auth_invalid {st : ServerState} {sock : Nat} {addr data : String}
    (hne : data ≠ "")
    (hv : MessageParser.validate_username (Security.sanitize_input (pyStrip data)) = false) :
    handle_client_authentication st sock addr data =
      (st, [.send sock (mkMessage .error "Invalid username format. Connection rejected."
        (some "System") none none), .close sock]) := by
  simp [handle_client_authentication, if_neg hne, hv]

/-- A valid but already-registered username: error envelope, then the
socket is closed; no state change. -/
theorem auth_taken {st : ServerState} {sock : Nat} {addr data : String}
    (hne : data ≠ "")
    (hv : MessageParser.validate_username (Security.sanitize_input (pyStrip data)) = true)
    (htaken : st.clients.any
      (fun c => Security.sanitize_input (pyStrip data) = c.2.2) = true) :
    handle_client_authentication st sock addr data =
      (st, [.send sock (mkMessage .error "Username already taken. Please try another one."
        (some "System") none none), .close sock]) := by
  simp [handle_client_authentication, if_neg hne, hv, htaken]

/-- `join_room` on an invalid room name: error envelope only (no close,
no state change); the source checks the name before anything else. -/
theorem join_room_invalid {st : ServerState} {sock : Nat} {name : String}
    (hval : MessageParser.validate_room_name name = false) :
    join_room st sock name =
      some (st, [.send sock (mkMessage .error (s!"Invalid room name: {name}")
        (some "System") none none)]) := by
  simp [join_room, hval]

/-- `join_room` on a full existing room: error envelope only, and the
state is returned untouched. -/
theorem join_room_full {st : ServerState} {sock : Nat} {name : String} {room : ChatRoom}
    {addr username : String}
    (hreg : lookupKey st.clients sock = some (addr, username))
    (hval : MessageParser.validate_room_name name = true)
    (hroom : lookupKey st.rooms name = some room)
    (hfull : room.max_users ≤ room.users.card) :
    join_room st sock name =
      some (st, [.send sock (mkMessage .error (s!"Room {name} is full")
        (some "System") none none)]) := by
  simp [join_room, createRoom, hval, hreg, hroom, hfull]

/-! ### Claim C5: joining a full room mutates nothing -/

/-- C5 (confirmed).  When a join targets a full room (a registered user, a
well-formed room name — any name a room can exist under — and
`capacity ≤ |members|`), the operation replies with exactly one error
envelope and returns the state unchanged: the target room keeps its
member set and the joining user keeps whatever room membership they had. -/
theorem claim_C5 :
    ∀ (st : ServerState) (sock : Nat) (name : String) (room : ChatRoom)
      (addr username : String),
      lookupKey st.clients sock = some (addr, username) →
      MessageParser.validate_room_name name = true →
      lookupKey st.rooms name = some room →
      room.max_users ≤ room.users.card →
      join_room st sock name =
        some (st, [.send sock (mkMessage .error (s!"Room {name} is full")
          (some "System") none none)]) := by
  intro st sock name room addr username hreg hval hroom hfull
  exact join_room_full hreg hval hroom hfull

/-- The spec's own scenario: room `lobby` with capacity 2 holding two
users; a third user's join is refused and nothing changes. -/
def stFullLobby : ServerState :=
  { clients := [(1, "a", "xx1"), (2, "a", "yy1"), (3, "a", "zz1")]
    rooms := [("main", { name := "main", description := "Main chat room", users := {"zz1"} }),
              ("lobby", { name := "lobby", max_users := 2, users := {"xx1", "yy1"} })]
    rate := {} }

theorem claim_C5_witness :
    join_room stFullLobby 3 "lobby" =
      some (stFullLobby, [.send 3 (mkMessage .error "Room lobby is full"
        (some "System") none none)]) :=
  claim_C5 stFullLobby 3 "lobby"
    { name := "lobby", max_users := 2, users := {"xx1", "yy1"} } "a" "zz1"
    (by decide) (by decide) (by decide) (by decide)

/-! ### Claim C7: which validation failures close the connection -/

/-- C7 counterexample (closed).  The claim has it backwards on both sides:
at authentication, the username `"ab"` (bad format) draws an error
envelope *followed by a close* — the connection does not remain open for
retry — while mid-session, `/join` with the invalid room name `"lobby!!"`
draws an error envelope and the connection is *not* closed (the reply list
contains no close and the call returns normally). -/
theorem claim_C7_cex :
    (Output.close 1 ∈ (handle_client_authentication initState 1 "addr" "ab").2) ∧
    join_room initState 1 "lobby!!" =
      some (initState, [.send 1 (mkMessage .error "Invalid room name: lobby!!"
        (some "System") none none)]) := by
  constructor
  · decide
  · decide

/-- C7 amended (proved).  On a username-format validation failure during
authentication the server replies with an error envelope and then closes
the connection (no retry on the same connection), whereas a room-name
validation failure mid-session (e.g. on `/join`) replies with an error
envelope and leaves the connection open — the session keeps reading
frames.  Neither case mutates any state. -/
theorem claim_C7_amended :
    (∀ (st : ServerState) (sock : Nat) (addr data : String),
      data ≠ "" →
      MessageParser.validate_username (Security.sanitize_input (pyStrip data)) = false →
      handle_client_authentication st sock addr data =
        (st, [.send sock (mkMessage .error "Invalid username format. Connection rejected."
          (some "System") none none), .close sock])) ∧
    (∀ (st : ServerState) (sock : Nat) (name : String),
      MessageParser.validate_room_name name = false →
      join_room st sock name =
        some (st, [.send sock (mkMessage .error (s!"Invalid room name: {name}")
          (some "System") none none)])) :=
  ⟨fun _ _ _ _ hne hv => auth_invalid hne hv,
   fun _ _ _ hval => join_room_invalid hval⟩

theorem claim_C7_witness :
    handle_client_authentication initState 2 "addr" "zz" =
      (initState, [.send 2 (mkMessage .error "Invalid username format. Connection rejected."
        (some "System") none none), .close 2]) ∧
    join_room initState 2 "a room" =
      some (initState, [.send 2 (mkMessage .error "Invalid room name: a room"
        (some "System") none none)]) :=
  ⟨claim_C7_amended.1 initState 2 "addr" "zz" (by decide) (by decide),
   claim_C7_amended.2 initState 2 "a room" (by decide)⟩

/-! ### Claim C10: the fixed authentication-failure policy -/

/-- C10 (confirmed).  During authentication, both a format-invalid
username and an already-taken one draw an error envelope immediately
followed by a close of the connection — no retry happens on the same
connection — and the state is returned exactly as it was: the connection
is never registered, no room membership changes, and the rate limiter is
untouched (the returned state carries all three components). -/
theorem claim_C10 :
    ∀ (st : ServerState) (sock : Nat) (addr data : String),
      data ≠ "" →
      (MessageParser.validate_username (Security.sanitize_input (pyStrip data)) = false ∨
        st.clients.any (fun c => Security.sanitize_input (pyStrip data) = c.2.2) = true) →
      ∃ m : Message, m.type = .error ∧
        handle_client_authentication st sock addr data = (st, [.send sock m, .close sock]) := by
  intro st sock addr data hne hbad
  by_cases hv : MessageParser.validate_username (Security.sanitize_input (pyStrip data)) = true
  · rcases hbad with hbad | hbad
    · rw [hv] at hbad; cases hbad
    · exact ⟨_, rfl, auth_taken hne hv hbad⟩
  · exact ⟨_, rfl, auth_invalid hne (Bool.not_eq_true _ ▸ Bool.eq_false_iff.mpr hv)⟩

theorem claim_C10_witness :
    ∃ m : Message, m.type = .error ∧
      handle_client_authentication initState 5 "addr" "ab" =
        (initState, [.send 5 m, .close 5]) :=
  claim_C10 initState 5 "addr" "ab" (by decide) (Or.inl (by decide))

/-! ### Claim C8: which malformed commands are really ignored -/

/-- State for the C8 counterexample: one registered user `zed`, currently
in room `lobby`. -/
def stC8 : ServerState :=
  { clients := [(1, "addr", "zed")]
    rooms := [("main", { name := "main", description := "Main chat room" }),
              ("lobby", { name := "lobby", description := "Room lobby", users := {"zed"} })]
    rate := {} }

/-- The state after `zed` sends `/leave x`: moved from `lobby` to `main`. -/
def stC8after : ServerState :=
  { clients := [(1, "addr", "zed")]
    rooms := [("main", { name := "main", description := "Main chat room", users := {"zed"} }),
              ("lobby", { name := "lobby", description := "Room lobby" })]
    rate := {} }

/-- C8 counterexample (closed).  `/leave x` is a known verb with the wrong
argument count (the grammar gives `leave` no arguments), yet the server
does not ignore it: the `leave` branch never checks `args`, so the command
executes, moving `zed` from `lobby` back to `main` and sending two system
replies — the resulting state differs from the starting one, refuting "no
server state changes". -/
theorem claim_C8_cex :
    handle_command stC8 1 "/leave x" =
      some (stC8after,
        [.send 1 (mkMessage .system "You left room: lobby" (some "System") none none),
         .send 1 (mkMessage .system "You joined room: main" (some "System") none
           (some "main"))]) ∧
    stC8after ≠ stC8 := by
  constructor
  · decide
  · decide

/-- C8 amended (proved).  A command-prefixed frame that parses to a verb
is silently ignored — no envelope of any kind is sent, the state is
returned unchanged, and the call returns normally so the session keeps
reading — precisely when the verb is unknown (not one of
help/join/leave/list/users/change/msg) or is `join` or `change` with an
argument count other than 1, or `msg` with fewer than two arguments.
(`help`, `leave`, `list` and `users` execute regardless of their argument
count, and a bare `/` raises `IndexError`, which terminates the session —
both excluded by the counterexample.) -/
theorem claim_C8_amended :
    ∀ (st : ServerState) (sock : Nat) (addr username data cmd : String) (args : List String),
      lookupKey st.clients sock = some (addr, username) →
      MessageParser.parse_command data = some (cmd, args) →
      (¬ cmd ∈ (["help", "join", "leave", "list", "users", "change", "msg"] : List String) ∨
        (cmd = "join" ∧ args.length ≠ 1) ∨
        (cmd = "change" ∧ args.length ≠ 1) ∨
        (cmd = "msg" ∧ args.length ≤ 1)) →
      handle_command st sock data = some (st, []) := by
  intro st sock addr username data cmd args hreg hparse hmal
  unfold handle_command
  rw [hreg, hparse]
  rcases hmal with hmal | hmal | hmal | hmal
  · simp only [List.mem_cons, List.not_mem_nil, or_false, not_or] at hmal
    obtain ⟨h1, h2, h3, h4, h5, h6, h7⟩ := hmal
    simp [h1, h2, h3, h4, h5, h6, h7]
  · obtain ⟨hcmd, hlen⟩ := hmal
    subst hcmd
    rcases args with _ | ⟨a, _ | ⟨b, rest⟩⟩
    · simp
    · simp at hlen
    · simp
  · obtain ⟨hcmd, hlen⟩ := hmal
    subst hcmd
    rcases args with _ | ⟨a, _ | ⟨b, rest⟩⟩
    · simp
    · simp at hlen
    · simp
  · obtain ⟨hcmd, hlen⟩ := hmal
    subst hcmd
    rcases args with _ | ⟨a, _ | ⟨b, rest⟩⟩
    · simp
    · simp
    · simp at hlen

/-- State for the C8 witness: one registered user in `main`. -/
def stC8w : ServerState :=
  { clients := [(1, "addr", "ali")]
    rooms := [("main", { name := "main", description := "Main chat room", users := {"ali"} })]
    rate := {} }

theorem claim_C8_witness :
    handle_command stC8w 1 "/frobnicate" = some (stC8w, []) :=
  claim_C8_amended stC8w 1 "addr" "ali" "/frobnicate" "frobnicate" []
    (by decide) (by decide) (Or.inl (by decide))

/-! ### Claim C4: disconnect cleanup is complete and idempotent -/

theorem filterMap_send_excl (m : Message) (sock : Nat) :
    ∀ l : List (Nat × String × String),
      (l.filterMap (fun c => if some sock = some c.1 then none
        else some (Output.send c.1 m))) =
        (l.filter (fun c => c.1 ≠ sock)).map (fun c => Output.send c.1 m)
  | [] => rfl
  | c :: rest => by
    by_cases h : sock = c.1
    · have h1 : (if some sock = some c.1 then (none : Option Output)
          else some (Output.send c.1 m)) = none := by simp [h]
      simp only [List.filterMap_cons, h1, List.filter_cons]
      rw [if_neg (by simp [h]), filterMap_send_excl m sock rest]
    · have h1 : (if some sock = some c.1 then (none : Option Output)
          else some (Output.send c.1 m)) = some (Output.send c.1 m) := by simp [h]
      simp only [List.filterMap_cons, h1, List.filter_cons]
      rw [if_pos (by simpa using Ne.symm h), List.map_cons,
        filterMap_send_excl m sock rest]

/-- A global broadcast excluding `sock` is one send per other client, in
registration order. -/
theorem broadcast_message_excl (st : ServerState) (m : Message) (sock : Nat) :
    broadcast_message st m (some sock) =
      (st.clients.filter (fun c => c.1 ≠ sock)).map (fun c => Output.send c.1 m) :=
  filterMap_send_excl m sock st.clients

/-- With unique socket keys, a per-client send list contains each other
client's envelope exactly once. -/
theorem count_send_excl {m : Message} {sock : Nat} {l : List (Nat × String × String)}
    (hn : (l.map Prod.fst).Nodup) {c : Nat × String × String} (hc : c ∈ l)
    (hne : c.1 ≠ sock) :
    ((l.filter (fun d => d.1 ≠ sock)).map (fun d => Output.send d.1 m)).count
      (Output.send c.1 m) = 1 := by
  have hmapeq : (l.filter (fun d => d.1 ≠ sock)).map (fun d => Output.send d.1 m) =
      ((l.filter (fun d => d.1 ≠ sock)).map Prod.fst).map (fun k => Output.send k m) := by
    rw [List.map_map]
    rfl
  have hkeys : ((l.filter (fun d => d.1 ≠ sock)).map Prod.fst).Nodup :=
    hn.sublist (List.Sublist.map _ (List.filter_sublist _))
  have hnodup :
      (((l.filter (fun d => d.1 ≠ sock)).map Prod.fst).map (fun k => Output.send k m)).Nodup :=
    hkeys.map (fun a b h => by simpa using h)
  have hmem : Output.send c.1 m ∈
      ((l.filter (fun d => d.1 ≠ sock)).map Prod.fst).map (fun k => Output.send k m) :=
    List.mem_map_of_mem _
      (List.mem_map_of_mem Prod.fst (List.mem_filter.mpr ⟨hc, by simpa using hne⟩))
  rw [hmapeq]
  exact List.count_eq_one_of_mem hnodup hmem

/-- C4 (confirmed).  After disconnect handling runs for a registered
connection: the connection's username is a member of no room, the socket
is gone from the client registry, and the output is exactly one global
leave envelope delivered once to every other client (the closing socket
excluded) followed by the close of the socket; running the handler again
for the same socket returns the state unchanged and emits nothing. -/
theorem claim_C4 :
    ∀ (st : ServerState) (sock : Nat) (addr username : String),
      lookupKey st.clients sock = some (addr, username) →
      ClientKeysNodup st →
      (∀ p ∈ (handle_client_disconnect st sock).1.rooms, username ∉ p.2.users) ∧
      lookupKey (handle_client_disconnect st sock).1.clients sock = none ∧
      (handle_client_disconnect st sock).2 =
        (st.clients.filter (fun c => c.1 ≠ sock)).map
          (fun c => Output.send c.1 (mkMessage .leave (s!"{username} left the chat")
            (some username) none none)) ++ [.close sock] ∧
      (∀ c ∈ st.clients, c.1 ≠ sock →
        (handle_client_disconnect st sock).2.count
          (Output.send c.1 (mkMessage .leave (s!"{username} left the chat")
            (some username) none none)) = 1) ∧
      handle_client_disconnect (handle_client_disconnect st sock).1 sock =
        ((handle_client_disconnect st sock).1, []) := by
  intro st sock addr username hreg hnodup
  have hd : handle_client_disconnect st sock =
      ({ st with
          clients := eraseKey st.clients sock
          rooms := st.rooms.map (fun p =>
            (p.1, { p.2 with users := p.2.users.erase username })) },
       broadcast_message
          { st with rooms := st.rooms.map (fun p =>
              (p.1, { p.2 with users := p.2.users.erase username })) }
          (mkMessage .leave (s!"{username} left the chat") (some username) none none)
          (some sock) ++ [.close sock]) := by
    unfold handle_client_disconnect
    rw [hreg]
  have hlook : lookupKey (handle_client_disconnect st sock).1.clients sock = none := by
    rw [hd]
    exact lookupKey_eraseKey_self hnodup
  refine ⟨?_, hlook, ?_, ?_, ?_⟩
  · intro p hp
    rw [hd] at hp
    rcases List.mem_map.mp hp with ⟨q, _, hq⟩
    rw [← hq]
    exact Finset.not_mem_erase _ _
  · rw [hd]
    rw [broadcast_message_excl]
  · intro c hc hcne
    rw [hd]
    rw [broadcast_message_excl, List.count_append]
    have hz : (List.count
        (Output.send c.1 (mkMessage .leave (s!"{username} left the chat")
          (some username) none none)) [Output.close sock]) = 0 := by
      simp
    rw [hz, Nat.add_zero]
    exact count_send_excl hnodup hc hcne
  · conv_lhs => rw [handle_client_disconnect.eq_def, hlook]

/-- State for the C4 witness: three clients; `bob` (socket 2) sits in two
rooms to show the cleanup sweeps them all. -/
def roomW4main : ChatRoom :=
  { name := "main", description := "Main chat room", users := {"ann", "bob", "cid"} }

def roomW4den : ChatRoom :=
  { name := "den", description := "Room den", users := {"bob"} }

def stW4 : ServerState :=
  { clients := [(1, "a", "ann"), (2, "a", "bob"), (3, "a", "cid")]
    rooms := [("main", roomW4main), ("den", roomW4den)]
    rate := {} }

theorem claim_C4_witness :
    (∀ p ∈ (handle_client_disconnect stW4 2).1.rooms, "bob" ∉ p.2.users) ∧
    lookupKey (handle_client_disconnect stW4 2).1.clients 2 = none ∧
    (handle_client_disconnect stW4 2).2 =
      (stW4.clients.filter (fun c => c.1 ≠ 2)).map
        (fun c => Output.send c.1 (mkMessage .leave "bob left the chat"
          (some "bob") none none)) ++ [.close 2] ∧
    (∀ c ∈ stW4.clients, c.1 ≠ 2 →
      (handle_client_disconnect stW4 2).2.count
        (Output.send c.1 (mkMessage .leave "bob left the chat"
          (some "bob") none none)) = 1) ∧
    handle_client_disconnect (handle_client_disconnect stW4 2).1 2 =
      ((handle_client_disconnect stW4 2).1, []) :=
  claim_C4 stW4 2 "a" "bob" (by decide)
    (show (stW4.clients.map Prod.fst).Nodup by decide)

/-! ### Invariant infrastructure for C2 and C3 -/

/-- Erasing `u` from the member set of one rooms-dict entry. -/
def eraseMember (u : String) (p : String × ChatRoom) : String × ChatRoom :=
  (p.1, { p.2 with users := p.2.users.erase u })

theorem updateRoom_keys (rooms : List (String × ChatRoom)) (name : String)
    (f : ChatRoom → ChatRoom) :
    (updateRoom rooms name f).map Prod.fst = rooms.map Prod.fst := by
  unfold updateRoom
  rw [List.map_map]
  apply List.map_congr_left
  intro p _
  by_cases h : p.1 = name <;> simp [h]

theorem countP_key_eq_one : ∀ {rooms : List (String × ChatRoom)} {name : String},
    (rooms.map Prod.fst).Nodup → name ∈ rooms.map Prod.fst →
    rooms.countP (fun p => decide (p.1 = name)) = 1 := by
  intro rooms
  induction rooms with
  | nil => intro name _ h; cases h
  | cons p rest ih =>
    intro name hn hmem
    simp only [List.map_cons, List.nodup_cons] at hn
    rw [List.countP_cons]
    rcases List.mem_cons.mp hmem with hm | hm
    · have hzero : rest.countP (fun q => decide (q.1 = name)) = 0 := by
        rw [List.countP_eq_zero]
        intro q hq
        simp only [decide_eq_true_eq]
        intro hqname
        exact hn.1 (hm ▸ hqname ▸ List.mem_map_of_mem Prod.fst hq)
      rw [hzero]
      simp [hm.symm]
    · have hne : p.1 ≠ name := fun h => hn.1 (h ▸ hm)
      rw [ih hn.2 hm]
      simp [hne]

theorem two_le_countP {α : Type} {p : α → Bool} :
    ∀ {l : List α} {a b : α}, a ∈ l → b ∈ l → a ≠ b → p a = true → p b = true →
      2 ≤ l.countP p := by
  intro l
  induction l with
  | nil => intro a b ha; cases ha
  | cons c rest ih =>
    intro a b ha hb hab hpa hpb
    rw [List.countP_cons]
    rcases List.mem_cons.mp ha with ha1 | ha1 <;> rcases List.mem_cons.mp hb with hb1 | hb1
    · exact absurd (ha1.trans hb1.symm) hab
    · have hpos : 0 < rest.countP p :=
        List.countP_pos_iff.mpr ⟨b, hb1, hpb⟩
      rw [if_pos (ha1 ▸ hpa)]
      omega
    · have hpos : 0 < rest.countP p :=
        List.countP_pos_iff.mpr ⟨a, ha1, hpa⟩
      rw [if_pos (hb1 ▸ hpb)]
      omega
    · have := ih ha1 hb1 hab hpa hpb
      omega

theorem removeUserGo_clients (u : String) :
    ∀ (names : List String) (st : ServerState) (acc : List Output),
      (removeUserGo u names st acc).1.clients = st.clients ∧
      (removeUserGo u names st acc).1.rate = st.rate
  | [], st, acc => ⟨rfl, rfl⟩
  | name :: rest, st, acc => by
    unfold removeUserGo
    cases h : lookupKey st.rooms name with
    | none => exact removeUserGo_clients u rest st acc
    | some r =>
      by_cases hu : u ∈ r.users
      · simp only [if_pos hu]
        exact removeUserGo_clients u rest _ _
      · simp only [if_neg hu]
        exact removeUserGo_clients u rest st acc

theorem removeUserGo_rooms (u : String) :
    ∀ (names : List String) (st : ServerState) (acc : List Output),
      RoomKeysNodup st →
      (removeUserGo u names st acc).1.rooms =
        st.rooms.map (fun p => if p.1 ∈ names then eraseMember u p else p)
  | [], st, acc, _ => by simp [removeUserGo]
  | name :: rest, st, acc, hn => by
    unfold removeUserGo
    cases h : lookupKey st.rooms name with
    | none =>
      rw [removeUserGo_rooms u rest st acc hn]
      apply List.map_congr_left
      intro p hp
      have hne : p.1 ≠ name := lookupKey_eq_none h p hp
      simp [List.mem_cons, hne]
    | some r =>
      by_cases hu : u ∈ r.users
      · simp only [if_pos hu]
        have hn' : RoomKeysNodup { st with rooms := updateRoom st.rooms name (fun rr => { rr with users := rr.users.erase u }) } := by
          unfold RoomKeysNodup at hn ⊢
          simpa [updateRoom_keys] using hn
        rw [removeUserGo_rooms u rest _ _ hn']
        show (updateRoom st.rooms name (fun rr => { rr with users := rr.users.erase u })).map _
          = _
        unfold updateRoom
        rw [List.map_map]
        apply List.map_congr_left
        intro p _
        by_cases hpn : p.1 = name
        · by_cases hpr : p.1 ∈ rest <;>
            simp [Function.comp, hpn, hpr, eraseMember, Finset.erase_idem]
        · by_cases hpr : p.1 ∈ rest <;>
            simp [Function.comp, hpn, hpr, eraseMember]
      · simp only [if_neg hu]
        rw [removeUserGo_rooms u rest st acc hn]
        apply List.map_congr_left
        intro p hp
        by_cases hpn : p.1 = name
        · have hpeq : p = (name, r) := lookupKey_unique hn h p hp hpn
          have hnoop : eraseMember u p = p := by
            rw [hpeq]
            simp [eraseMember, Finset.erase_eq_self.mpr hu]
          by_cases hpr : p.1 ∈ rest <;> simp [List.mem_cons, hpn, hpr, hnoop]
        · by_cases hpr : p.1 ∈ rest <;> simp [List.mem_cons, hpn, hpr]

/-- The removal loop of `join_room` erases the user from every room and
changes nothing else of the state. -/
theorem removeUserFromRooms_spec (st : ServerState) (u : String) (hn : RoomKeysNodup st) :
    (removeUserFromRooms st u).1 = { st with rooms := st.rooms.map (eraseMember u) } := by
  unfold removeUserFromRooms
  have hc := removeUserGo_clients u (st.rooms.map Prod.fst) st []
  have hr := removeUserGo_rooms u (st.rooms.map Prod.fst) st [] hn
  have hall : st.rooms.map (fun p =>
      if p.1 ∈ st.rooms.map Prod.fst then eraseMember u p else p) =
      st.rooms.map (eraseMember u) := by
    apply List.map_congr_left
    intro p hp
    rw [if_pos (List.mem_map_of_mem Prod.fst hp)]
  cases hgo : removeUserGo u (st.rooms.map Prod.fst) st [] with
  | mk st2 outs2 =>
    rw [hgo] at hc hr
    obtain ⟨hcl, hrt⟩ := hc
    cases st2 with
    | mk c2 r2 l2 =>
      simp only at hcl hrt hr
      rw [hall] at hr
      simp [hcl, hrt, hr]

/-- The state `join_room` leaves behind on its success path: the user is
erased from every room of the (lazily extended) rooms dict and inserted
into the target. -/
def joinPost (st : ServerState) (username name : String) : ServerState :=
  { st with rooms := updateRoom ((createRoom st name).map (eraseMember username)) name (fun r => { r with users := insert username r.users }) }

theorem createRoom_keys_nodup {st : ServerState} (hn : RoomKeysNodup st) (name : String) :
    ((createRoom st name).map Prod.fst).Nodup := by
  unfold createRoom
  by_cases h : (lookupKey st.rooms name).isNone
  · rw [if_pos h]
    have hnone : lookupKey st.rooms name = none :=
      Option.isNone_iff_eq_none.mp (by simpa using h)
    have hmem : name ∉ st.rooms.map Prod.fst := by
      intro hmem
      rcases List.mem_map.mp hmem with ⟨p, hp, hpk⟩
      exact lookupKey_eq_none hnone p hp hpk
    rw [List.map_append]
    refine List.Nodup.append hn (by simp) ?_
    intro a ha ha2
    simp only [List.map_cons, List.map_nil, List.mem_singleton] at ha2
    exact hmem (ha2 ▸ ha)
  · rw [if_neg h]
    exact hn

theorem createRoom_countP_le {st : ServerState} (hone : AtMostOneRoom st) (name : String)
    (v : String) :
    (createRoom st name).countP (fun p => decide (v ∈ p.2.users)) ≤ 1 := by
  have hone' : st.rooms.countP (fun p => decide (v ∈ p.2.users)) ≤ 1 := hone v
  unfold createRoom
  by_cases h : (lookupKey st.rooms name).isNone
  · rw [if_pos h, List.countP_append]
    simpa using hone'
  · rw [if_neg h]
    exact hone'

theorem createRoom_members {st : ServerState} {name : String} {p : String × ChatRoom}
    (hp : p ∈ createRoom st name) {u : String} (hu : u ∈ p.2.users) :
    ∃ q ∈ st.rooms, u ∈ q.2.users := by
  unfold createRoom at hp
  by_cases h : (lookupKey st.rooms name).isNone
  · rw [if_pos h] at hp
    rcases List.mem_append.mp hp with hp | hp
    · exact ⟨p, hp, hu⟩
    · exfalso
      rcases List.mem_singleton.mp hp with rfl
      simp at hu
  · rw [if_neg h] at hp
    exact ⟨p, hp, hu⟩

theorem createRoom_name_mem {st : ServerState} {name : String} {room : ChatRoom}
    (h : lookupKey (createRoom st name) name = some room) :
    name ∈ (createRoom st name).map Prod.fst :=
  List.mem_map_of_mem Prod.fst (lookupKey_mem h)

/-- Case analysis on `join_room`: an error reply leaves the state alone
(up to the lazy room creation, which only happens on the path that then
succeeds), and the success path lands exactly in `joinPost`. -/
theorem join_room_state {st : ServerState} {sock : Nat} {name : String} {st' : ServerState}
    {outs : List Output} (hn : RoomKeysNodup st)
    (h : join_room st sock name = some (st', outs)) :
    st' = st ∨ st' = { st with rooms := createRoom st name } ∨
    ∃ addr username room,
      lookupKey st.clients sock = some (addr, username) ∧
      lookupKey (createRoom st name) name = some room ∧
      room.users.card < room.max_users ∧
      st' = joinPost st username name := by
  by_cases hval : MessageParser.validate_room_name name = true
  · rcases hcl0 : lookupKey st.clients sock with _ | au
    · exfalso
      simp [join_room, hval, hcl0] at h
    · obtain ⟨addr, username⟩ := au
      have hcl : lookupKey st.clients sock = some (addr, username) := hcl0
      rcases Option.eq_none_or_eq_some (lookupKey (createRoom st name) name) with hrm | hrm
      · exfalso
        simp [join_room, hval, hcl, hrm] at h
      · obtain ⟨room, hrm⟩ := hrm
        by_cases hfull : room.max_users ≤ room.users.card
        · right; left
          simp only [join_room, hval, not_true_eq_false, if_false, hcl, hrm,
            if_pos hfull] at h
          injection h with h2
          exact (congrArg Prod.fst h2).symm
        · right; right
          have hn1 : RoomKeysNodup { st with rooms := createRoom st name } :=
            createRoom_keys_nodup hn name
          have hspec := removeUserFromRooms_spec { st with rooms := createRoom st name }
            username hn1
          simp only [join_room, hval, not_true_eq_false, if_false, hcl, hrm,
            if_neg hfull, hspec] at h
          injection h with h2
          injection h2 with h2a h2b
          exact ⟨addr, username, room, rfl, hrm, by omega, h2a ▸ rfl⟩
  · left
    have hval' : MessageParser.validate_room_name name = false :=
      Bool.eq_false_iff.mpr (by simpa using hval)
    rw [join_room_invalid hval'] at h
    injection h with h2
    exact (congrArg Prod.fst h2).symm

theorem countP_key_le_one (name : String) : ∀ {rooms : List (String × ChatRoom)},
    (rooms.map Prod.fst).Nodup →
    rooms.countP (fun p => decide (p.1 = name)) ≤ 1 := by
  intro rooms
  induction rooms with
  | nil => intro _; simp
  | cons p rest ih =>
    intro hn
    simp only [List.map_cons, List.nodup_cons] at hn
    rw [List.countP_cons]
    by_cases hp : p.1 = name
    · have hzero : rest.countP (fun q => decide (q.1 = name)) = 0 := by
        rw [List.countP_eq_zero]
        intro q hq
        simp only [decide_eq_true_eq]
        intro hqname
        exact hn.1 (hp ▸ hqname ▸ List.mem_map_of_mem Prod.fst hq)
      rw [hzero]
      simp [hp]
    · have hrec := ih hn.2
      simp [hp]
      omega

theorem mapErase_keys (rooms : List (String × ChatRoom)) (u : String) :
    (rooms.map (eraseMember u)).map Prod.fst = rooms.map Prod.fst := by
  rw [List.map_map]
  apply List.map_congr_left
  intro p _
  rfl

theorem joinPost_keys (st : ServerState) (username name : String) :
    (joinPost st username name).rooms.map Prod.fst = (createRoom st name).map Prod.fst := by
  unfold joinPost
  rw [updateRoom_keys, mapErase_keys]

theorem joinPost_clients (st : ServerState) (username name : String) :
    (joinPost st username name).clients = st.clients := rfl

/-- Membership in a `joinPost` entry, traced back to the pre-state. -/
theorem joinPost_rooms_mem {st : ServerState} {username name : String}
    {p' : String × ChatRoom} (hp : p' ∈ (joinPost st username name).rooms) :
    ∃ p ∈ createRoom st name, p'.1 = p.1 ∧
      (p'.2.users = insert username (p.2.users.erase username) ∨
       p'.2.users = p.2.users.erase username) := by
  unfold joinPost updateRoom at hp
  rw [List.map_map] at hp
  rcases List.mem_map.mp hp with ⟨p, hpmem, hpeq⟩
  by_cases hk : p.1 = name
  · refine ⟨p, hpmem, ?_, Or.inl ?_⟩
    · rw [← hpeq]
      simp [Function.comp, eraseMember, hk]
    · rw [← hpeq]
      simp [Function.comp, eraseMember, hk]
  · refine ⟨p, hpmem, ?_, Or.inr ?_⟩
    · rw [← hpeq]
      simp [Function.comp, eraseMember, hk]
    · rw [← hpeq]
      simp [Function.comp, eraseMember, hk]

theorem createRoom_cards {st : ServerState}
    (hcap : ∀ p ∈ st.rooms, p.2.users.card ≤ p.2.max_users) (name : String) :
    ∀ p ∈ createRoom st name, p.2.users.card ≤ p.2.max_users := by
  intro p hp
  unfold createRoom at hp
  by_cases h : (lookupKey st.rooms name).isNone
  · rw [if_pos h] at hp
    rcases List.mem_append.mp hp with hp | hp
    · exact hcap p hp
    · rcases List.mem_singleton.mp hp with rfl
      simp
  · rw [if_neg h] at hp
    exact hcap p hp

/-- The success state of a join keeps every room within capacity. -/
theorem roomsWF_joinPost {st : ServerState} {username name : String} {room : ChatRoom}
    (hwf : RoomsWF st)
    (hrm : lookupKey (createRoom st name) name = some room)
    (hfull : room.users.card < room.max_users) :
    RoomsWF (joinPost st username name) := by
  obtain ⟨hn, hcap⟩ := hwf
  have hn1 : ((createRoom st name).map Prod.fst).Nodup := createRoom_keys_nodup hn name
  constructor
  · unfold RoomKeysNodup
    rw [joinPost_keys]
    exact hn1
  · intro p' hp'
    unfold joinPost updateRoom at hp'
    rw [List.map_map] at hp'
    rcases List.mem_map.mp hp' with ⟨p, hpmem, hpeq⟩
    have hpcap : p.2.users.card ≤ p.2.max_users := createRoom_cards hcap name p hpmem
    by_cases hk : p.1 = name
    · have hpe : p = (name, room) := lookupKey_unique hn1 hrm p hpmem hk
      have h3 : p.2.users.card < p.2.max_users := by rw [hpe]; exact hfull
      have h1 := Finset.card_insert_le username (p.2.users.erase username)
      have h2 : (p.2.users.erase username).card ≤ p.2.users.card :=
        Finset.card_erase_le
      rw [← hpeq]
      simp only [Function.comp_apply, eraseMember, hk, if_true]
      omega
    · have h2 : (p.2.users.erase username).card ≤ p.2.users.card :=
        Finset.card_erase_le
      have h4 := hpcap
      rw [← hpeq]
      simp only [Function.comp_apply, eraseMember, if_neg hk]
      omega

theorem roomsWF_createState {st : ServerState} (hwf : RoomsWF st) (name : String) :
    RoomsWF { st with rooms := createRoom st name } :=
  ⟨createRoom_keys_nodup hwf.1 name, createRoom_cards hwf.2 name⟩

/-- Any result of `join_room` keeps every room within capacity. -/
theorem roomsWF_join {st : ServerState} {sock : Nat} {name : String} {st' : ServerState}
    {outs : List Output} (hwf : RoomsWF st)
    (h : join_room st sock name = some (st', outs)) : RoomsWF st' := by
  rcases join_room_state hwf.1 h with h1 | h1 | ⟨addr, username, room, hcl, hrm, hfull, h1⟩
  · exact h1 ▸ hwf
  · exact h1 ▸ roomsWF_createState hwf name
  · exact h1 ▸ roomsWF_joinPost hwf hrm hfull

theorem runJoins_wf {st : ServerState} (hwf : RoomsWF st) :
    ∀ js : List (Nat × String), RoomsWF (runJoins st js) := by
  intro js
  induction js generalizing st with
  | nil => exact hwf
  | cons j js ih =>
    show RoomsWF (runJoins _ js)
    cases hj : join_room st j.1 j.2 with
    | none => exact ih (by simpa [runJoins, hj] using hwf)
    | some r =>
      have := roomsWF_join hwf hj
      simpa [runJoins, hj] using ih this

/-! ### Claim C2: joins never push a room past its capacity -/

/-- C2 (confirmed).  From any state whose rooms are within capacity (with
room names unique, as a Python dict guarantees), after any sequence of
`join_room` calls every room's member-set size is still at most its
capacity; and a join whose target room already holds `capacity` or more
members is rejected with an error reply, the user is not added, and the
state is returned completely unchanged. -/
theorem claim_C2 :
    ∀ st : ServerState, RoomsWF st →
      (∀ js : List (Nat × String), ∀ p ∈ (runJoins st js).rooms,
        p.2.users.card ≤ p.2.max_users) ∧
      (∀ (sock : Nat) (name : String) (room : ChatRoom) (addr username : String),
        lookupKey st.clients sock = some (addr, username) →
        MessageParser.validate_room_name name = true →
        lookupKey st.rooms name = some room →
        room.max_users ≤ room.users.card →
        join_room st sock name = some (st, [.send sock (mkMessage .error
          (s!"Room {name} is full") (some "System") none none)])) := by
  intro st hwf
  constructor
  · intro js p hp
    exact (runJoins_wf hwf js).2 p hp
  · intro sock name room addr username hreg hval hroom hfull
    exact join_room_full hreg hval hroom hfull

theorem claim_C2_witness :
    (∀ p ∈ (runJoins stFullLobby [(3, "lobby"), (3, "den")]).rooms,
      p.2.users.card ≤ p.2.max_users) ∧
    join_room stFullLobby 3 "lobby" = some (stFullLobby, [.send 3 (mkMessage .error
      "Room lobby is full" (some "System") none none)]) := by
  have hwf : RoomsWF stFullLobby :=
    ⟨show (stFullLobby.rooms.map Prod.fst).Nodup by decide,
     show ∀ p ∈ stFullLobby.rooms, p.2.users.card ≤ p.2.max_users by decide⟩
  exact ⟨(claim_C2 stFullLobby hwf).1 [(3, "lobby"), (3, "den")],
    (claim_C2 stFullLobby hwf).2 3 "lobby"
      { name := "lobby", max_users := 2, users := {"xx1", "yy1"} } "a" "zz1"
      (by decide) (by decide) (by decide) (by decide)⟩

/-! ### Preservation of `Inv` by every server operation (claim C3) -/

theorem clientUsernames_mem {st : ServerState} {sock : Nat} {addr username : String}
    (h : lookupKey st.clients sock = some (addr, username)) :
    username ∈ clientUsernames st :=
  List.mem_map.mpr ⟨(sock, addr, username), lookupKey_mem h, rfl⟩

theorem inv_createState {st : ServerState} (hInv : Inv st) (name : String) :
    Inv { st with rooms := createRoom st name } := by
  obtain ⟨hrk, hck, hone, hmem⟩ := hInv
  refine ⟨createRoom_keys_nodup hrk name, hck, ?_, ?_⟩
  · intro v
    exact createRoom_countP_le hone name v
  · intro p hp u hu
    rcases createRoom_members hp hu with ⟨q, hq, hqu⟩
    exact hmem q hq u hqu

theorem inv_joinPost {st : ServerState} {sock : Nat} {username name addr : String}
    {room : ChatRoom} (hInv : Inv st)
    (hcl : lookupKey st.clients sock = some (addr, username))
    (_hrm : lookupKey (createRoom st name) name = some room) :
    Inv (joinPost st username name) := by
  obtain ⟨hrk, hck, hone, hmem⟩ := hInv
  have hn1 : ((createRoom st name).map Prod.fst).Nodup := createRoom_keys_nodup hrk name
  refine ⟨?_, hck, ?_, ?_⟩
  · unfold RoomKeysNodup
    rw [joinPost_keys]
    exact hn1
  · intro v
    show ((joinPost st username name).rooms.countP (fun p => decide (v ∈ p.2.users))) ≤ 1
    unfold joinPost updateRoom
    rw [List.map_map, List.countP_map]
    by_cases hv : v = username
    · subst hv
      refine le_trans (le_of_eq (List.countP_congr ?_)) (countP_key_le_one name hn1)
      intro p _
      by_cases hk : p.1 = name <;> simp [Function.comp, eraseMember, hk]
    · refine le_trans (le_of_eq (List.countP_congr ?_)) (createRoom_countP_le hone name v)
      intro p _
      by_cases hk : p.1 = name <;>
        simp [Function.comp, eraseMember, hk, Finset.mem_insert, Finset.mem_erase, hv]
  · intro p' hp' w hw
    rcases joinPost_rooms_mem hp' with ⟨p, hpmem, _, husers | husers⟩
    · rw [husers] at hw
      rcases Finset.mem_insert.mp hw with hw1 | hw1
      · subst hw1
        exact clientUsernames_mem hcl
      · have hw2 := Finset.mem_of_mem_erase hw1
        rcases createRoom_members hpmem hw2 with ⟨q, hq, hqu⟩
        exact hmem q hq w hqu
    · rw [husers] at hw
      have hw2 := Finset.mem_of_mem_erase hw
      rcases createRoom_members hpmem hw2 with ⟨q, hq, hqu⟩
      exact hmem q hq w hqu

theorem inv_join_room {st : ServerState} {sock : Nat} {name : String} {st' : ServerState}
    {outs : List Output} (hInv : Inv st)
    (h : join_room st sock name = some (st', outs)) : Inv st' := by
  rcases join_room_state hInv.1 h with h1 | h1 | ⟨addr, username, room, hcl, hrm, _, h1⟩
  · exact h1 ▸ hInv
  · exact h1 ▸ inv_createState hInv name
  · exact h1 ▸ inv_joinPost hInv hcl hrm

theorem inv_updateErase {st : ServerState} (hInv : Inv st) (rn u : String) :
    Inv { st with rooms := updateRoom st.rooms rn (fun r => { r with users := r.users.erase u }) } := by
  obtain ⟨hrk, hck, hone, hmem⟩ := hInv
  refine ⟨?_, hck, ?_, ?_⟩
  · show ((updateRoom st.rooms rn (fun r => { r with users := r.users.erase u })).map Prod.fst).Nodup
    rw [updateRoom_keys]
    exact hrk
  · intro v
    show ((updateRoom st.rooms rn (fun r => { r with users := r.users.erase u })).countP (fun p => decide (v ∈ p.2.users))) ≤ 1
    unfold updateRoom
    rw [List.countP_map]
    refine le_trans (List.countP_mono_left ?_) (hone v)
    intro p hp h
    revert h
    by_cases hk : p.1 = rn <;> simp [Function.comp, hk, Finset.mem_erase]
  · intro p' hp' w hw
    rcases List.mem_map.mp hp' with ⟨p, hpmem, hpeq⟩
    have hw2 : w ∈ p.2.users := by
      rw [← hpeq] at hw
      by_cases hk : p.1 = rn
      · simp only [hk, if_pos rfl] at hw
        exact Finset.mem_of_mem_erase hw
      · simpa [hk] using hw
    exact hmem p hpmem w hw2

theorem inv_leave_room {st : ServerState} {sock : Nat} {st' : ServerState}
    {outs : List Output} (hInv : Inv st)
    (h : leave_room st sock = some (st', outs)) : Inv st' := by
  unfold leave_room at h
  rcases hcl : lookupKey st.clients sock with _ | au
  · rw [hcl] at h
    exact Option.noConfusion h
  · obtain ⟨addr, username⟩ := au
    simp only [hcl] at h
    rcases hfind : st.rooms.find? (fun p => username ∈ p.2.users) with _ | rnr
    · simp only [hfind] at h
      injection h with h2
      exact (show st = st' from congrArg Prod.fst h2) ▸ hInv
    · obtain ⟨rn, rr⟩ := rnr
      simp only [hfind] at h
      rcases hjr : join_room { st with rooms := updateRoom st.rooms rn (fun r => { r with users := r.users.erase username }) } sock "main" with _ | r2
      · rw [hjr] at h
        exact Option.noConfusion h
      · obtain ⟨st2, outs3⟩ := r2
        rw [hjr] at h
        injection h with h2
        have hInv1 := inv_updateErase hInv rn username
        have hInv2 := inv_join_room hInv1 hjr
        exact (show st2 = st' from congrArg Prod.fst h2) ▸ hInv2

theorem updateClient_keys (clients : List (Nat × String × String)) (sock : Nat)
    (v : String × String) :
    (updateClient clients sock v).map Prod.fst = clients.map Prod.fst := by
  unfold updateClient
  rw [List.map_map]
  apply List.map_congr_left
  intro p _
  by_cases h : p.1 = sock <;> simp [h]

theorem mem_updateClient_of_ne {clients : List (Nat × String × String)} {sock : Nat}
    {v : String × String} {c : Nat × String × String} (hc : c ∈ clients) (hne : c.1 ≠ sock) :
    c ∈ updateClient clients sock v := by
  unfold updateClient
  have he : (fun p : Nat × String × String => if p.1 = sock then (p.1, v) else p) c = c := by
    simp [hne]
  exact he ▸ List.mem_map_of_mem _ hc

theorem sockEntry_mem_updateClient {clients : List (Nat × String × String)} {sock : Nat}
    {addr cur : String} (v : String × String)
    (h : lookupKey clients sock = some (addr, cur)) :
    (sock, v) ∈ updateClient clients sock v := by
  unfold updateClient
  have he : (fun p : Nat × String × String => if p.1 = sock then (p.1, v) else p)
      (sock, addr, cur) = (sock, v) := by simp
  exact he ▸ List.mem_map_of_mem _ (lookupKey_mem h)

theorem username_in_update {st : ServerState} {sock : Nat} {addr cur : String}
    (hck : ClientKeysNodup st)
    (hcl : lookupKey st.clients sock = some (addr, cur))
    {w : String} (hw : w ∈ clientUsernames st) (hwne : w ≠ cur) (v : String × String) :
    w ∈ (updateClient st.clients sock v).map (fun c => c.2.2) := by
  rcases List.mem_map.mp hw with ⟨c, hc, hceq⟩
  have hcne : c.1 ≠ sock := by
    intro hceq1
    have hcv : c = (sock, addr, cur) :=
      nodup_key_inj hck hc (lookupKey_mem hcl) (by rw [hceq1])
    rw [hcv] at hceq
    exact hwne hceq.symm
  exact List.mem_map.mpr ⟨c, mem_updateClient_of_ne hc hcne, hceq⟩

theorem inv_change_username {st : ServerState} {sock : Nat} {arg : String}
    {st' : ServerState} {outs : List Output} (hInv : Inv st)
    (h : change_username st sock arg = some (st', outs)) : Inv st' := by
  obtain ⟨hrk, hck, hone, hmem⟩ := hInv
  unfold change_username at h
  rcases hcl : lookupKey st.clients sock with _ | ac
  · rw [hcl] at h
    exact Option.noConfusion h
  · obtain ⟨addr, cur⟩ := ac
    simp only [hcl] at h
    by_cases hv : MessageParser.validate_username
        (Security.sanitize_input (pyStrip arg)) = true
    · simp only [hv, not_true_eq_false, if_false] at h
      by_cases htk : (st.clients.any
          (fun c => Security.sanitize_input (pyStrip arg) = c.2.2)) = true
      · simp only [htk, if_true] at h
        injection h with h2
        exact (show st = st' from congrArg Prod.fst h2) ▸ ⟨hrk, hck, hone, hmem⟩
      · have htk' : (st.clients.any
            (fun c => Security.sanitize_input (pyStrip arg) = c.2.2)) = false :=
          Bool.eq_false_iff.mpr (by simpa using htk)
        simp only [htk', Bool.false_eq_true, if_false] at h
        have hnu : Security.sanitize_input (pyStrip arg) ∉ clientUsernames st := by
          intro hmem'
          rcases List.mem_map.mp hmem' with ⟨c, hc, hceq⟩
          have : st.clients.any
              (fun c => Security.sanitize_input (pyStrip arg) = c.2.2) = true :=
            List.any_eq_true.mpr ⟨c, hc, by simp [hceq]⟩
          rw [htk'] at this
          exact Bool.noConfusion this
        have hnurooms : ∀ p ∈ st.rooms, Security.sanitize_input (pyStrip arg) ∉ p.2.users :=
          fun p hp hu => hnu (hmem p hp _ hu)
        have hnecur : Security.sanitize_input (pyStrip arg) ≠ cur := by
          intro he
          exact hnu (he ▸ clientUsernames_mem hcl)
        rcases hfind : st.rooms.find? (fun p => cur ∈ p.2.users) with _ | rnr
        · simp only [hfind] at h
          have hnorooms : ∀ p ∈ st.rooms, cur ∉ p.2.users := by
            intro p hp hcu
            have := List.find?_eq_none.mp hfind p hp
            simp [hcu] at this
          injection h with h2
          have hst' : st' = { st with
              clients := updateClient st.clients sock (addr,
                Security.sanitize_input (pyStrip arg)) } :=
            (congrArg Prod.fst h2).symm
          rw [hst']
          refine ⟨hrk, ?_, hone, ?_⟩
          · show ((updateClient st.clients sock _).map Prod.fst).Nodup
            rw [updateClient_keys]
            exact hck
          · intro p hp w hw
            have hwu : w ∈ clientUsernames st := hmem p hp w hw
            have hwne : w ≠ cur := fun he => hnorooms p hp (he ▸ hw)
            exact username_in_update hck hcl hwu hwne _
        · obtain ⟨rn, r0⟩ := rnr
          simp only [hfind] at h
          have hr0mem : (rn, r0) ∈ st.rooms := List.mem_of_find?_eq_some hfind
          have hcur0 : cur ∈ r0.users := by
            have := List.find?_some hfind
            simpa using this
          have honly : ∀ p ∈ st.rooms, p.1 ≠ rn → cur ∉ p.2.users := by
            intro p hp hpne hcu
            have h2le : 2 ≤ st.rooms.countP (fun p => decide (cur ∈ p.2.users)) := by
              refine two_le_countP hp hr0mem ?_ (by simpa using hcu) (by simpa using hcur0)
              intro he
              exact hpne (congrArg Prod.fst he)
            have hle := hone cur
            unfold roomsWith at hle
            omega
          injection h with h2
          have hst' : st' = { st with
              clients := updateClient st.clients sock (addr,
                Security.sanitize_input (pyStrip arg))
              rooms := updateRoom st.rooms rn (fun r => { r with
                users := insert (Security.sanitize_input (pyStrip arg))
                  (r.users.erase cur) }) } :=
            (congrArg Prod.fst h2).symm
          rw [hst']
          refine ⟨?_, ?_, ?_, ?_⟩
          · show ((updateRoom st.rooms rn (fun r => { r with users := insert (Security.sanitize_input (pyStrip arg)) (r.users.erase cur) })).map Prod.fst).Nodup
            rw [updateRoom_keys]
            exact hrk
          · show ((updateClient st.clients sock (addr, Security.sanitize_input (pyStrip arg))).map Prod.fst).Nodup
            rw [updateClient_keys]
            exact hck
          · intro v
            show ((updateRoom st.rooms rn (fun r => { r with users := insert (Security.sanitize_input (pyStrip arg)) (r.users.erase cur) })).countP (fun p => decide (v ∈ p.2.users))) ≤ 1
            unfold updateRoom
            rw [List.countP_map]
            by_cases hv1 : v = Security.sanitize_input (pyStrip arg)
            · subst hv1
              have hrnmem : rn ∈ st.rooms.map Prod.fst :=
                List.mem_map_of_mem Prod.fst hr0mem
              refine le_trans (le_of_eq (List.countP_congr ?_)) (countP_key_le_one rn hrk)
              intro p hp
              by_cases hk : p.1 = rn <;>
                simp [Function.comp, hk, Finset.mem_insert, hnurooms p hp]
            · by_cases hv2 : v = cur
              · subst hv2
                have hzero : st.rooms.countP ((fun p => decide (v ∈ p.2.users)) ∘
                    (fun p => if p.1 = rn then (p.1, { p.2 with
                      users := insert (Security.sanitize_input (pyStrip arg))
                        (p.2.users.erase v) }) else p)) = 0 := by
                  rw [List.countP_eq_zero]
                  intro p hp
                  by_cases hk : p.1 = rn
                  · simp [Function.comp, hk, Finset.mem_insert, Finset.mem_erase,
                      Ne.symm hnecur]
                  · simp [Function.comp, hk]
                    exact honly p hp hk
                rw [hzero]
                omega
              · refine le_trans (le_of_eq (List.countP_congr ?_)) (hone v)
                intro p _
                by_cases hk : p.1 = rn <;>
                  simp [Function.comp, hk, Finset.mem_insert, Finset.mem_erase, hv1, hv2]
          · intro p' hp' w hw
            rcases List.mem_map.mp hp' with ⟨p, hpmem, hpeq⟩
            by_cases hk : p.1 = rn
            · rw [← hpeq] at hw
              simp only [hk, if_pos rfl] at hw
              rcases Finset.mem_insert.mp hw with hw1 | hw1
              · subst hw1
                exact List.mem_map.mpr
                  ⟨(sock, addr, Security.sanitize_input (pyStrip arg)),
                    sockEntry_mem_updateClient _ hcl, rfl⟩
              · have hwne : w ≠ cur := (Finset.mem_erase.mp hw1).1
                have hwin : w ∈ p.2.users := Finset.mem_of_mem_erase hw1
                exact username_in_update hck hcl (hmem p hpmem w hwin) hwne _
            · rw [← hpeq] at hw
              simp only [hk, if_neg hk] at hw
              have hwne : w ≠ cur := fun he => honly p hpmem hk (he ▸ hw)
              exact username_in_update hck hcl (hmem p hpmem w hw) hwne _
    · have hv' : MessageParser.validate_username
          (Security.sanitize_input (pyStrip arg)) = false :=
        Bool.eq_false_iff.mpr (by simpa using hv)
      simp only [hv', Bool.false_eq_true, not_false_eq_true, if_true] at h
      injection h with h2
      exact (show st = st' from congrArg Prod.fst h2) ▸ ⟨hrk, hck, hone, hmem⟩

theorem username_in_erase {st : ServerState} {sock : Nat} {addr u : String}
    (hck : ClientKeysNodup st)
    (hcl : lookupKey st.clients sock = some (addr, u))
    {w : String} (hw : w ∈ clientUsernames st) (hwne : w ≠ u) :
    w ∈ (eraseKey st.clients sock).map (fun c => c.2.2) := by
  rcases List.mem_map.mp hw with ⟨c, hc, hceq⟩
  have hcne : c.1 ≠ sock := by
    intro hceq1
    have hcv : c = (sock, addr, u) :=
      nodup_key_inj hck hc (lookupKey_mem hcl) (by rw [hceq1])
    rw [hcv] at hceq
    exact hwne hceq.symm
  exact List.mem_map.mpr ⟨c, mem_eraseKey_of_key_ne hc hcne, hceq⟩

theorem disconnect_state_eq {st : ServerState} {sock : Nat} {addr u : String}
    (hreg : lookupKey st.clients sock = some (addr, u)) :
    (handle_client_disconnect st sock).1 =
      { st with
        clients := eraseKey st.clients sock
        rooms := st.rooms.map (eraseMember u) } := by
  unfold handle_client_disconnect
  rw [hreg]
  rfl

theorem inv_disconnect {st : ServerState} (hInv : Inv st) (sock : Nat) :
    Inv (handle_client_disconnect st sock).1 := by
  obtain ⟨hrk, hck, hone, hmem⟩ := hInv
  rcases hcl : lookupKey st.clients sock with _ | au
  · unfold handle_client_disconnect
    rw [hcl]
    exact ⟨hrk, hck, hone, hmem⟩
  · obtain ⟨addr, u⟩ := au
    rw [disconnect_state_eq hcl]
    refine ⟨?_, ?_, ?_, ?_⟩
    · show ((st.rooms.map (eraseMember u)).map Prod.fst).Nodup
      rw [mapErase_keys]
      exact hrk
    · show ((eraseKey st.clients sock).map Prod.fst).Nodup
      exact hck.sublist (List.Sublist.map _ (eraseKey_sublist _ _))
    · intro v
      show ((st.rooms.map (eraseMember u)).countP (fun p => decide (v ∈ p.2.users))) ≤ 1
      rw [List.countP_map]
      refine le_trans (List.countP_mono_left ?_) (hone v)
      intro p _ hpred
      revert hpred
      simp only [Function.comp, eraseMember, decide_eq_true_eq]
      intro hpred
      exact Finset.mem_of_mem_erase hpred
    · intro p' hp' w hw
      rcases List.mem_map.mp hp' with ⟨p, hpmem, hpeq⟩
      rw [← hpeq] at hw
      simp only [eraseMember] at hw
      have hwne : w ≠ u := (Finset.mem_erase.mp hw).1
      have hwin : w ∈ p.2.users := Finset.mem_of_mem_erase hw
      exact username_in_erase hck hcl (hmem p hpmem w hwin) hwne

theorem inv_auth {st : ServerState} {sock : Nat} {addr data : String} (hInv : Inv st)
    (hfree : lookupKey st.clients sock = none) :
    Inv (handle_client_authentication st sock addr data).1 := by
  obtain ⟨hrk, hck, hone, hmem⟩ := hInv
  by_cases h0 : data = ""
  · simp only [handle_client_authentication, h0, if_pos rfl]
    exact ⟨hrk, hck, hone, hmem⟩
  · by_cases hv : MessageParser.validate_username
        (Security.sanitize_input (pyStrip data)) = true
    · by_cases htk : (st.clients.any
          (fun c => Security.sanitize_input (pyStrip data) = c.2.2)) = true
      · rw [auth_taken h0 hv htk]
        exact ⟨hrk, hck, hone, hmem⟩
      · have htk' : (st.clients.any
            (fun c => Security.sanitize_input (pyStrip data) = c.2.2)) = false :=
          Bool.eq_false_iff.mpr (by simpa using htk)
        have hres : (handle_client_authentication st sock addr data).1 =
            { st with
              clients := st.clients ++ [(sock, addr, Security.sanitize_input (pyStrip data))]
              rooms := updateRoom st.rooms "main" (fun r => { r with
                users := insert (Security.sanitize_input (pyStrip data)) r.users }) } := by
          simp [handle_client_authentication, h0, hv, htk']
        rw [hres]
        have hnu : Security.sanitize_input (pyStrip data) ∉ clientUsernames st := by
          intro hmem'
          rcases List.mem_map.mp hmem' with ⟨c, hc, hceq⟩
          have : st.clients.any
              (fun c => Security.sanitize_input (pyStrip data) = c.2.2) = true :=
            List.any_eq_true.mpr ⟨c, hc, by simp [hceq]⟩
          rw [htk'] at this
          exact Bool.noConfusion this
        have hnurooms : ∀ p ∈ st.rooms,
            Security.sanitize_input (pyStrip data) ∉ p.2.users :=
          fun p hp hu => hnu (hmem p hp _ hu)
        have hsockfree : sock ∉ st.clients.map Prod.fst := by
          intro hmem'
          rcases List.mem_map.mp hmem' with ⟨c, hc, hceq⟩
          exact lookupKey_eq_none hfree c hc hceq
        refine ⟨?_, ?_, ?_, ?_⟩
        · show ((updateRoom st.rooms "main" (fun r => { r with users := insert (Security.sanitize_input (pyStrip data)) r.users })).map Prod.fst).Nodup
          rw [updateRoom_keys]
          exact hrk
        · show (((st.clients ++ [(sock, addr, Security.sanitize_input (pyStrip data))]).map Prod.fst)).Nodup
          rw [List.map_append]
          refine List.Nodup.append hck (by simp) ?_
          intro a ha ha2
          simp only [List.map_cons, List.map_nil, List.mem_singleton] at ha2
          exact hsockfree (ha2 ▸ ha)
        · intro v
          show ((updateRoom st.rooms "main" (fun r => { r with users := insert (Security.sanitize_input (pyStrip data)) r.users })).countP (fun p => decide (v ∈ p.2.users))) ≤ 1
          unfold updateRoom
          rw [List.countP_map]
          by_cases hv1 : v = Security.sanitize_input (pyStrip data)
          · subst hv1
            refine le_trans (le_of_eq (List.countP_congr ?_)) (countP_key_le_one "main" hrk)
            intro p hp
            by_cases hk : p.1 = "main" <;>
              simp [Function.comp, hk, Finset.mem_insert, hnurooms p hp]
          · refine le_trans (le_of_eq (List.countP_congr ?_)) (hone v)
            intro p _
            by_cases hk : p.1 = "main" <;>
              simp [Function.comp, hk, Finset.mem_insert, hv1]
        · intro p' hp' w hw
          rcases List.mem_map.mp hp' with ⟨p, hpmem, hpeq⟩
          show w ∈ (st.clients ++ [(sock, addr, Security.sanitize_input (pyStrip data))]).map (fun c => c.2.2)
          rw [List.map_append]
          by_cases hk : p.1 = "main"
          · rw [← hpeq] at hw
            simp only [hk, if_pos rfl] at hw
            rcases Finset.mem_insert.mp hw with hw1 | hw1
            · subst hw1
              simp
            · exact List.mem_append_left _ (hmem p hpmem w hw1)
          · rw [← hpeq] at hw
            simp only [hk, if_neg hk] at hw
            exact List.mem_append_left _ (hmem p hpmem w hw)
    · have hv' : MessageParser.validate_username
          (Security.sanitize_input (pyStrip data)) = false :=
        Bool.eq_false_iff.mpr (by simpa using hv)
      rw [auth_invalid h0 hv']
      exact ⟨hrk, hck, hone, hmem⟩

theorem list_room_users_state {st : ServerState} {sock : Nat} {r : ServerState × List Output}
    (h : list_room_users st sock = some r) : r.1 = st := by
  unfold list_room_users at h
  rcases hcl : lookupKey st.clients sock with _ | au
  · rw [hcl] at h
    exact Option.noConfusion h
  · obtain ⟨addr, u⟩ := au
    simp only [hcl] at h
    rcases hfind : st.rooms.find? (fun p => u ∈ p.2.users) with _ | rnr
    · simp only [hfind] at h
      injection h with h2
      exact (congrArg Prod.fst h2).symm
    · obtain ⟨rn, rr⟩ := rnr
      simp only [hfind] at h
      injection h with h2
      exact (congrArg Prod.fst h2).symm

theorem send_private_message_state (st : ServerState) (a b c : String) :
    (send_private_message st a b c).1 = st := by
  unfold send_private_message
  cases st.clients.find? (fun cc => cc.2.2 = b) <;> rfl

theorem inv_handle_command {st : ServerState} {sock : Nat} {data : String}
    {st' : ServerState} {outs : List Output} (hInv : Inv st)
    (h : handle_command st sock data = some (st', outs)) : Inv st' := by
  unfold handle_command at h
  rcases hcl : lookupKey st.clients sock with _ | au
  · rw [hcl] at h
    exact Option.noConfusion h
  · obtain ⟨addr, username⟩ := au
    simp only [hcl] at h
    rcases hp : MessageParser.parse_command data with _ | ca
    · rw [hp] at h
      exact Option.noConfusion h
    · obtain ⟨cmd, args⟩ := ca
      simp only [hp] at h
      repeat' split at h
      all_goals first
        | exact Option.noConfusion h
        | exact inv_join_room hInv h
        | exact inv_leave_room hInv h
        | exact inv_change_username hInv h
        | exact (show st' = st from list_room_users_state h).symm ▸ hInv
        | (injection h with h2
           have h3 : st = st' := by
             have h4 := congrArg Prod.fst h2
             first
               | exact h4
               | (rw [send_private_message_state] at h4; exact h4)
           exact h3 ▸ hInv)

theorem inv_handle_frame {st : ServerState} {sock now : Nat} {data : String}
    {st' : ServerState} {outs : List Output} (hInv : Inv st)
    (h : handle_frame st sock now data = some (st', outs)) : Inv st' := by
  unfold handle_frame at h
  rcases hcl : lookupKey st.clients sock with _ | au
  · rw [hcl] at h
    exact Option.noConfusion h
  · obtain ⟨addr, username⟩ := au
    simp only [hcl] at h
    have hInv1 : Inv { st with rate := (st.rate.can_send_message username now).2 } := hInv
    split at h
    · injection h with h2
      exact (show _ = st' from congrArg Prod.fst h2) ▸ hInv1
    · split at h
      · rcases hc : handle_command
            { st with rate := (st.rate.can_send_message username now).2 } sock data
            with _ | r
        · rw [hc] at h
          injection h with h2
          have hd := inv_disconnect hInv1 sock
          exact (show _ = st' from congrArg Prod.fst h2) ▸ hd
        · rw [hc] at h
          injection h with h2
          exact inv_handle_command hInv1 (h2 ▸ hc)
      · injection h with h2
        exact (show _ = st' from congrArg Prod.fst h2) ▸ hInv1

theorem inv_applyOp {st : ServerState} (hInv : Inv st) (op : Op) : Inv (applyOp st op).1 := by
  cases op with
  | auth sock addr data =>
    show Inv ((if (lookupKey st.clients sock).isSome then (st, ([] : List Output)) else handle_client_authentication st sock addr data).1)
    by_cases hg : (lookupKey st.clients sock).isSome = true
    · rw [if_pos hg]
      exact hInv
    · have hfree : lookupKey st.clients sock = none := by
        cases hx : lookupKey st.clients sock with
        | none => rfl
        | some v => rw [hx] at hg; simp at hg
      rw [if_neg (by simpa using hg)]
      exact inv_auth hInv hfree
  | frame sock now data =>
    show Inv ((match handle_frame st sock now data with | some r => r | none => (st, [])).1)
    rcases hf : handle_frame st sock now data with _ | r
    · exact hInv
    · obtain ⟨st2, outs2⟩ := r
      exact inv_handle_frame hInv hf
  | disconnect sock => exact inv_disconnect hInv sock

theorem inv_init : Inv initState := by
  refine ⟨?_, ?_, ?_, ?_⟩
  · show ((initState.rooms.map Prod.fst)).Nodup
    decide
  · show ((initState.clients.map Prod.fst)).Nodup
    decide
  · intro u
    show (initState.rooms.countP (fun p => decide (u ∈ p.2.users))) ≤ 1
    simp [initState, List.countP_cons]
  · intro p hp u hu
    simp only [initState, List.mem_singleton] at hp
    subst hp
    simp at hu

theorem inv_runOps (ops : List Op) : Inv (runOps ops) := by
  have hstep : ∀ (ops : List Op) (st : ServerState), Inv st →
      Inv (ops.foldl (fun s op => (applyOp s op).1) st) := by
    intro ops
    induction ops with
    | nil => intro st h; exact h
    | cons op ops ih =>
      intro st h
      exact ih _ (inv_applyOp h op)
  exact hstep ops initState inv_init

/-! ### Claim C3: how many rooms can a user occupy? -/

/-- C3 amended (proved).  In every state reachable from server start-up by
any sequence of events (authentications, Active-state frames — hence
joins, leaves, renames, chats and the rest of the command set — and
disconnects), each username is a member of **at most one** room.  The
"exactly one" of the original claim fails: a leave operation first removes
the user and only then re-joins `"main"`, and that re-join is refused when
`"main"` is at capacity, leaving the authenticated user in zero rooms
(see the counterexample). -/
theorem claim_C3_amended : ∀ (ops : List Op) (u : String), roomsWith (runOps ops) u ≤ 1 :=
  fun ops u => (inv_runOps ops).2.2.1 u

/-- Two-digit decimal suffix for the generated usernames of the C3
counterexample trace. -/
def twoDigit (i : Nat) : String :=
  if i < 10 then "0" ++ toString i else toString i

/-- The C3 counterexample trace: `zzz` authenticates and joins `lobby`;
one hundred further users authenticate, filling `main` to its fixed
capacity of 100 (authentication adds to `main` with no capacity check);
then `zzz` sends `/leave`. -/
def c3ops : List Op :=
  [Op.auth 0 "a" "zzz", Op.frame 0 0 "/join lobby"] ++
  ((List.range 100).map (fun i => Op.auth (i + 1) "a" ("a" ++ twoDigit i))) ++
  [Op.frame 0 1 "/leave"]

set_option maxRecDepth 100000 in
/-- C3 counterexample (closed).  After the `c3ops` trace the connection of
`zzz` (socket 0) is still authenticated and registered, yet `zzz` is a
member of **no** room: `leave_room` removed `zzz` from `lobby` and the
re-join was rejected because `main` held 100 members.  This refutes
"every authenticated connection's username is a member of exactly one
room" and "no authenticated user is ever in zero rooms". -/
theorem claim_C3_cex :
    lookupKey (runOps c3ops).clients 0 = some ("a", "zzz") ∧
    (runOps c3ops).rooms.all (fun p => "zzz" ∉ p.2.users) = true := by
  constructor
  · decide
  · decide

/-! ### Claim C6: a failed delivery aborts the rest of the fan-out -/

/-- Failing input for C6: three clients `ann`, `bob`, `cid`, all members of
`main`; an envelope is broadcast to the room and the send to `bob`
(socket 2) fails. -/
def roomC6 : ChatRoom :=
  { name := "main", description := "Main chat room", users := {"ann", "bob", "cid"} }

def stC6 : ServerState :=
  { clients := [(1, "a", "ann"), (2, "a", "bob"), (3, "a", "cid")]
    rooms := [("main", roomC6)]
    rate := {} }

def msgC6 : Message := mkMessage .chat "hello" (some "ann") none (some "main")

def lmC6 : Message := mkMessage .leave "bob left the chat" (some "bob") none none

def roomC6after : ChatRoom :=
  { name := "main", description := "Main chat room", users := {"ann", "cid"} }

def stC6after : ServerState :=
  { clients := [(1, "a", "ann"), (3, "a", "cid")]
    rooms := [("main", roomC6after)]
    rate := {} }

/-- C6 (code bug, evaluated at the failing input).  When the send to
socket 2 fails mid-fan-out, the recipient is indeed cleaned up (removed
from `main` and from the registry, its own leave notice broadcast, its
socket closed), but the iteration then resumes over `self.clients`, a dict
just shrunk by `del` inside `handle_client_disconnect`, so CPython raises
`RuntimeError: dictionary changed size during iteration` (`exc = true`)
and the envelope is never delivered to the remaining member `cid`
(`Output.send 3 msgC6` is absent from the outputs) — contradicting both
the claim and the spec's snapshot-then-iterate description, while the
source's per-recipient `try/except` shows continuing was the intent. -/
theorem claim_C6 :
    broadcast_to_room_d [2] stC6 msgC6 "main" none 5 =
      ⟨stC6after, [.send 1 msgC6, .send 1 lmC6, .send 3 lmC6, .close 2], true⟩ ∧
    Output.send 3 msgC6 ∉ (broadcast_to_room_d [2] stC6 msgC6 "main" none 5).outs := by
  constructor
  · decide
  · decide

end ChatApp
